import Mathlib

/-!
Verification development for the otters-rt realtime audio effects engine.

The Rust source is shallowly embedded: 32-bit float samples are modelled as
exact rationals (`ℚ`) or, where a development is generic, as elements of an
arbitrary field; `usize` arithmetic is modelled with `ℕ` (with explicit `%`
where the source wraps); fallible / panicking operations return `Option` or
`Except`.  Each definition mirrors one item of the source tree
(`src/context.rs`, `src/utils/ringbuf.rs`, `src/utils/delay_buf.rs`,
`src/effects/bypass.rs`, `src/effects/delay/basic_delay.rs`,
`src/utils/biquad.rs`, `src/effects/biquad_filter.rs`,
`src/effects/vocoder2.rs`, `src/otters.rs`, `src/param.rs`).
-/

namespace Otters

/-- Model of `BoardEffectConfigParameterValue` (src/conf.rs): a tagged
integer/float parameter value.  Floats are embedded as exact rationals. -/
inductive ParamValue
  | N (n : ℤ)
  | F (q : ℚ)
  deriving DecidableEq, Repr

/-- Rust `f32::round` rounds half away from zero. -/
def rustRound (q : ℚ) : ℤ :=
  if 0 ≤ q then ⌊q + 1/2⌋ else -⌊-q + 1/2⌋

/-- Rust `f32::trunc` (rounding toward zero), used by `vmodf`. -/
def rustTrunc (q : ℚ) : ℤ :=
  if 0 ≤ q then ⌊q⌋ else ⌈q⌉

/-- `BoardEffectConfigParameterValue::as_flt` (src/conf.rs). -/
def ParamValue.asFlt : ParamValue → ℚ
  | .N n => (n : ℚ)
  | .F q => q

/-- `BoardEffectConfigParameterValue::as_int` (src/conf.rs). -/
def ParamValue.asInt : ParamValue → ℤ
  | .N n => n
  | .F q => rustRound q

/-- `vmodf` (src/utils/arch/generic.rs): `(v.trunc() as i32, v.fract())`. -/
def vmodf (q : ℚ) : ℤ × ℚ := (rustTrunc q, q - (rustTrunc q : ℚ))

/-- `mathutils::lerp` (src/utils/mathutils.rs). -/
def lerp (x y t : ℚ) : ℚ := x + t * (y - x)

/-!
## Generic cyclic-store characterization

The engine writes sample streams into circular buffers whose write cursor
advances by one slot per write and wraps at the buffer limit
(`SimpleFloatBuffer::write`, the delay line, and the vocoder input ring all
follow this pattern).  `cyclicWrites z c x n` is the content after the first
`n` samples of the stream `x` have been written into a `c`-slot buffer whose
slots initially all hold `z`.
-/

/-- Buffer contents after writing `x 0, x 1, …, x (n-1)` in order into a
cyclic buffer of `c` slots (slot for write `k` is `k % c`), starting from the
constant-`z` buffer. -/
def cyclicWrites {α : Type} (z : α) (c : ℕ) (x : ℕ → α) : ℕ → (ℕ → α)
  | 0 => fun _ => z
  | n + 1 => Function.update (cyclicWrites z c x n) (n % c) (x n)

/-!
## Ring buffers (src/utils/ringbuf.rs)
-/

/-- Model of `SimpleFloatBuffer`: a fixed-capacity circular sample buffer.
`data` is total on `ℕ` but only slots `< capacity` are meaningful (the Rust
`Vec` holds exactly `capacity` zero-initialized entries). -/
structure SFB where
  data : ℕ → ℚ
  capacity : ℕ
  limit : ℕ
  writeIdx : ℕ
  deriving Inhabited

/-- `SimpleFloatBuffer::with_max_capacity`: zero-filled, `limit = capacity`,
write cursor at 0. -/
def SFB.withMaxCapacity (c : ℕ) : SFB := ⟨fun _ => 0, c, c, 0⟩

/-- `SimpleFloatBuffer::write`: stores at the write cursor (the `value`
argument is the only input; no index), then advances the cursor mod `limit`. -/
def SFB.write (b : SFB) (v : ℚ) : SFB :=
  { b with data := Function.update b.data b.writeIdx v,
           writeIdx := (b.writeIdx + 1) % b.limit }

/-- `SimpleFloatBuffer::read`: `data[(write_idx + idx) % limit]`. -/
def SFB.read (b : SFB) (idx : ℕ) : ℚ := b.data ((b.writeIdx + idx) % b.limit)

/-- Write the block `x 0, …, x (n-1)` in order (n successive
`SimpleFloatBuffer::write` calls). -/
def SFB.writeSeq (b : SFB) (x : ℕ → ℚ) : ℕ → SFB
  | 0 => b
  | n + 1 => (b.writeSeq x n).write (x n)

/-- Model of `TinyFloatBuffer`: two-slot history buffer for IIR state. -/
structure TinyBuf where
  x0 : ℚ
  x1 : ℚ
  nextIdx : ℕ
  deriving DecidableEq

/-- `TinyFloatBuffer::new`. -/
def TinyBuf.new : TinyBuf := ⟨0, 0, 0⟩

/-- `TinyFloatBuffer::z2`: the slot at `next_idx`. -/
def TinyBuf.z2 (t : TinyBuf) : ℚ := if t.nextIdx % 2 = 0 then t.x0 else t.x1

/-- `TinyFloatBuffer::z1`: the slot at `(next_idx + 1) % 2`. -/
def TinyBuf.z1 (t : TinyBuf) : ℚ := if (t.nextIdx + 1) % 2 = 0 then t.x0 else t.x1

/-- `TinyFloatBuffer::write`: store at `next_idx`, advance mod 2. -/
def TinyBuf.write (t : TinyBuf) (v : ℚ) : TinyBuf :=
  if t.nextIdx % 2 = 0 then ⟨v, t.x1, (t.nextIdx + 1) % 2⟩
  else ⟨t.x0, v, (t.nextIdx + 1) % 2⟩

/-- Read-back of a block of `n` samples at offsets `0, …, n-1` after the block
was written into a fresh buffer of capacity `c`. -/
def SFB.readAfterBlock (c : ℕ) (x : ℕ → ℚ) (n i : ℕ) : ℚ :=
  ((SFB.withMaxCapacity c).writeSeq x n).read i

/-!
## Board context construction (src/context.rs)

Buffer names (Rust `String`) are modelled as `List Char`; error messages are
also `List Char` (built from the same `format!` templates as the source).
`HashMap<String, usize>` is modelled as an association list with
`insert`-replaces-existing-key semantics; only `contains_key` / indexing /
`len` are used by the source, so the model exposes exactly those.
-/

/-- `HashMap::contains_key` on the association-list model. -/
def mapContains (m : List (List Char × ℕ)) (k : List Char) : Bool :=
  m.any (fun p => p.1 = k)

/-- `HashMap::insert` (replaces the value if the key is present). -/
def mapInsert (m : List (List Char × ℕ)) (k : List Char) (v : ℕ) :
    List (List Char × ℕ) :=
  if mapContains m k then m.map (fun p => if p.1 = k then (k, v) else p)
  else m ++ [(k, v)]

/-- `HashMap` indexing, total with `none` for a missing key (the source only
indexes keys it has checked with `contains_key`). -/
def mapGet (m : List (List Char × ℕ)) (k : List Char) : Option ℕ :=
  (m.find? (fun p => p.1 = k)).map (·.2)

/-- `str::starts_with` on character lists: `hasPref s p` holds when `p` is an
initial segment of `s`. -/
def hasPref : List Char → List Char → Bool
  | _, [] => true
  | [], _ :: _ => false
  | c :: cs, p :: ps => c = p && hasPref cs ps

/-- One decimal digit, or `none`. -/
def digitVal (c : Char) : Option ℕ :=
  if '0' ≤ c ∧ c ≤ '9' then some (c.toNat - '0'.toNat) else none

/-- Accumulating decimal parser over the remaining characters. -/
def parseNatGo (acc : ℕ) : List Char → Option ℕ
  | [] => some acc
  | c :: cs =>
    match digitVal c with
    | some d => parseNatGo (acc * 10 + d) cs
    | none => none

/-- Model of `str::parse::<usize>` restricted to all-digit inputs (the
source only ever parses the numeric suffix of `@SOURCE_k` / `@SINK_k`
names; a leading `+`, which Rust would also accept, is not modelled). -/
def parseNatDigits (s : List Char) : Option ℕ :=
  if s = [] then none else parseNatGo 0 s

/-- Model of `BoardContextConstructionState`. -/
structure ConsState where
  map : List (List Char × ℕ)
  numExt : ℕ

/-- The constants of src/context.rs. -/
def MAX_ALLOWABLE_BUF_DECLS : ℕ := 1024
def MAX_ALLOWABLE_INPUTS : ℕ := 10
def MAX_ALLOWABLE_OUTPUTS : ℕ := 10
def MAX_EXTERNAL_INS : ℕ := 6
def MAX_EXTERNAL_OUTS : ℕ := 6
def FIRST_INPUT_IDX : ℕ := 1024
def FIRST_OUTPUT_IDX : ℕ := 2048

/-- `BoardContextConstructionState::generate_idx_for_buf_name`.  Returns the
updated state and `some idx`, or `none` for a rejected name.  `@SOURCE_k`
(`k < 10`) maps to `1024 + k`, `@SINK_k` (`k < 10`) to `2048 + k`, any other
name to `map.len() - num_external_buffers` (Rust `usize` subtraction; debug
builds would panic on underflow, which only error paths can reach). -/
def generateIdxForBufName (st : ConsState) (name : List Char) :
    ConsState × Option ℕ :=
  if hasPref name "@SOURCE_".data ∧ 8 < name.length then
    match parseNatDigits (name.drop 8) with
    | some k =>
      if MAX_ALLOWABLE_INPUTS ≤ k then (st, none)
      else ({ st with numExt := st.numExt + 1 }, some (k + FIRST_INPUT_IDX))
    | none => (st, none)
  else if hasPref name "@SINK_".data ∧ 6 < name.length then
    match parseNatDigits (name.drop 6) with
    | some k =>
      if MAX_ALLOWABLE_OUTPUTS ≤ k then (st, none)
      else ({ st with numExt := st.numExt + 1 }, some (k + FIRST_OUTPUT_IDX))
    | none => (st, none)
  else (st, some (st.map.length - st.numExt))

/-- Loop body state of `create_mem_buffers`: construction state, accumulated
error messages, created internal buffers. -/
def createMemBuffersGo (maxBlockSize : ℕ) :
    ConsState × List (List Char) × List SFB → List (List Char) →
      ConsState × List (List Char) × List SFB
  | acc, [] => acc
  | (st, errs, bufs), name :: rest =>
    let errs1 :=
      if mapContains st.map name then
        errs ++ ["Redeclaration of buffer ".data ++ name]
      else errs
    match generateIdxForBufName st name with
    | (st1, none) =>
      createMemBuffersGo maxBlockSize
        (st1, errs1 ++ ["Failed to generate idx for name ".data ++ name], bufs) rest
    | (st1, some idx) =>
      let st2 : ConsState := { st1 with map := mapInsert st1.map name idx }
      let bufs1 :=
        if idx < MAX_ALLOWABLE_BUF_DECLS then
          bufs ++ [SFB.withMaxCapacity maxBlockSize]
        else bufs
      createMemBuffersGo maxBlockSize (st2, errs1, bufs1) rest

/-- `create_mem_buffers` (src/context.rs): the buffer pass.  Rejects more
than 1024 declarations up front, otherwise folds over the declared names
accumulating all errors; fails with the aggregate list if any occurred. -/
def createMemBuffers (bufNames : List (List Char)) (maxBlockSize : ℕ) :
    Except (List (List Char)) (ConsState × List SFB) :=
  if MAX_ALLOWABLE_BUF_DECLS < bufNames.length then
    .error [("Too many buffers. Requested ".data ++ (toString bufNames.length).data
             ++ ". Max ".data ++ (toString MAX_ALLOWABLE_BUF_DECLS).data)]
  else
    let r := createMemBuffersGo maxBlockSize (⟨[], 0⟩, [], []) bufNames
    if r.2.1 = [] then .ok (r.1, r.2.2) else .error r.2.1

/-- One declared connection (`BoardConnectionDeclaration`, src/conf.rs). -/
structure ConnDecl where
  effect : List Char
  reads : List (List Char)
  writes : List (List Char)

/-- A resolved connection (`BoardConnection`, src/context.rs). -/
structure BoardConnection where
  ordinal : ℕ
  inputsIdxs : List ℕ
  outputIdxs : List ℕ
  deriving Inhabited

/-- `LoadedEffects` restricted to what `create_effect_connections` reads:
the bind-name-to-ordinal view of the effects map. -/
def LoadedEffectsMap := List (List Char × ℕ)

/-- `find_buffer_targets` (src/context.rs): resolve each name, accumulating
errors for unknown names and names already used within this connection;
returns (resolved indices, updated used-name set, accumulated errors). -/
def findBufferTargets (helper : ConsState) :
    List ℕ × List (List Char) × List (List Char) → List (List Char) →
      List ℕ × List (List Char) × List (List Char)
  | acc, [] => acc
  | (idxs, used, errs), name :: rest =>
    if ¬ mapContains helper.map name then
      findBufferTargets helper
        (idxs, used, errs ++ ["No such buffer ".data ++ name]) rest
    else if name ∈ used then
      findBufferTargets helper
        (idxs, used, errs ++ ["Buffer already used ".data ++ name]) rest
    else
      findBufferTargets helper
        (idxs ++ [(mapGet helper.map name).getD 0], used ++ [name], errs) rest

/-- Loop body of `create_effect_connections`. -/
def createEffectConnectionsGo (helper : ConsState) (effects : LoadedEffectsMap) :
    List (List Char) × List BoardConnection → List ConnDecl →
      List (List Char) × List BoardConnection
  | acc, [] => acc
  | (errs, conns), ci :: rest =>
    if ¬ mapContains effects ci.effect then
      createEffectConnectionsGo helper effects
        (errs ++ ["Trying to connect nonexistent node ".data ++ ci.effect], conns) rest
    else
      let ordinal := (mapGet effects ci.effect).getD 0
      if effects.length ≤ ordinal then
        createEffectConnectionsGo helper effects
          (errs ++ ["Effect has out-of-range ordinal".data], conns) rest
      else
        let rr := findBufferTargets helper ([], [], errs) ci.reads
        let ww := findBufferTargets helper ([], rr.2.1, rr.2.2) ci.writes
        createEffectConnectionsGo helper effects
          (ww.2.2, conns ++ [⟨ordinal, rr.1, ww.1⟩]) rest

/-- `create_effect_connections` (src/context.rs): the connection pass. -/
def createEffectConnections (helper : ConsState)
    (connectionInfos : List ConnDecl) (effects : LoadedEffectsMap) :
    Except (List (List Char)) (List BoardConnection) :=
  let r := createEffectConnectionsGo helper effects ([], []) connectionInfos
  if r.1 = [] then .ok r.2 else .error r.1

/-- Model of `BoardContext`.  External slots hold `none` for a null host
pointer and `some mem` for a bound pointer into host memory `mem`. -/
structure BoardState where
  buffers : List SFB
  connections : List BoardConnection
  externalIns : List (Option (ℕ → ℚ))
  externalOuts : List (Option (ℕ → ℚ))

/-- `BoardContext::initialize_context`: buffer pass, connection pass, then
external slot vectors of length `MAX_EXTERNAL_INS` / `MAX_EXTERNAL_OUTS`
(= 6) filled with null pointers. -/
def initializeContext (bufNames : List (List Char)) (conns : List ConnDecl)
    (maxBlockSize : ℕ) (effects : LoadedEffectsMap) :
    Except (List (List Char)) BoardState := do
  let (st, bufs) ← createMemBuffers bufNames maxBlockSize
  let resolved ← createEffectConnections st conns effects
  pure ⟨bufs, resolved, List.replicate MAX_EXTERNAL_INS none,
        List.replicate MAX_EXTERNAL_OUTS none⟩

/-- `BoardContext::bind_sink`: no-op for `sink_idx ≥ MAX_ALLOWABLE_OUTPUTS`;
otherwise writes `external_outs[sink_idx]`, which panics (`none`) when the
index is outside the actual vector (length `MAX_EXTERNAL_OUTS` = 6). -/
def bindSink (st : BoardState) (sinkIdx : ℕ) (p : Option (ℕ → ℚ)) :
    Option BoardState :=
  if MAX_ALLOWABLE_OUTPUTS ≤ sinkIdx then some st
  else if sinkIdx < st.externalOuts.length then
    some { st with externalOuts := st.externalOuts.set sinkIdx p }
  else none

/-- `BoardContext::bind_source`; same shape as `bindSink`. -/
def bindSource (st : BoardState) (sourceIdx : ℕ) (p : Option (ℕ → ℚ)) :
    Option BoardState :=
  if MAX_ALLOWABLE_INPUTS ≤ sourceIdx then some st
  else if sourceIdx < st.externalIns.length then
    some { st with externalIns := st.externalIns.set sourceIdx p }
  else none

/-- `AudioBufferReader` (src/utils/buf_rw.rs).  `internal` / `external`
carry the buffer index / slot they borrow; reads go through the current
`BoardState`. -/
inductive Reader
  | null
  | internal (bufIdx : ℕ)
  | external (slot : ℕ)
  deriving DecidableEq

/-- `AudioBufferWriter` (src/utils/buf_rw.rs). -/
inductive Writer
  | null
  | internal (bufIdx : ℕ)
  | external (slot : ℕ)
  deriving DecidableEq

/-- `BoardContext::get_buffer_for_read`: `none` models the panic of indexing
`external_ins` beyond its length. -/
def getBufferForRead (st : BoardState) (bufIdx : ℕ) : Option Reader :=
  if FIRST_INPUT_IDX ≤ bufIdx then
    if FIRST_INPUT_IDX + MAX_ALLOWABLE_INPUTS ≤ bufIdx then some .null
    else
      match st.externalIns.get? (bufIdx - FIRST_INPUT_IDX) with
      | none => none
      | some none => some .null
      | some (some _) => some (.external (bufIdx - FIRST_INPUT_IDX))
  else
    if st.buffers.length ≤ bufIdx then some .null
    else some (.internal bufIdx)

/-- `BoardContext::get_buffer_for_write`; same shape on the output side. -/
def getBufferForWrite (st : BoardState) (bufIdx : ℕ) : Option Writer :=
  if FIRST_OUTPUT_IDX ≤ bufIdx then
    if FIRST_OUTPUT_IDX + MAX_ALLOWABLE_OUTPUTS ≤ bufIdx then some .null
    else
      match st.externalOuts.get? (bufIdx - FIRST_OUTPUT_IDX) with
      | none => none
      | some none => some .null
      | some (some _) => some (.external (bufIdx - FIRST_OUTPUT_IDX))
  else
    if st.buffers.length ≤ bufIdx then some .null
    else some (.internal bufIdx)

/-- `AudioBufferReader::buf_read`: `Null` reads 0; `Internal` delegates to
`SimpleFloatBuffer::read`; `External` reads host memory (0 through a null
pointer, mirroring `unsafe_buf_read`). -/
def bufRead (st : BoardState) (r : Reader) (idx : ℕ) : ℚ :=
  match r with
  | .null => 0
  | .internal b => ((st.buffers.getD b default).read idx)
  | .external s =>
    match st.externalIns.getD s none with
    | none => 0
    | some mem => mem idx

/-- `AudioBufferWriter::buf_write`: `Null` discards; `Internal` ignores the
index argument and delegates to `SimpleFloatBuffer::write`; `External`
stores at `idx` in host memory (discarded through a null pointer, mirroring
`unsafe_buf_write`). -/
def bufWrite (st : BoardState) (w : Writer) (idx : ℕ) (v : ℚ) : BoardState :=
  match w with
  | .null => st
  | .internal b => { st with buffers := st.buffers.set b ((st.buffers.getD b default).write v) }
  | .external s =>
    match st.externalOuts.getD s none with
    | none => st
    | some mem =>
      { st with externalOuts := st.externalOuts.set s (some (Function.update mem idx v)) }

/-!
## A concrete successfully-constructed board

The identity board of the spec's end-to-end scenario 1: buffers
`["@SOURCE_0","@SINK_0"]`, one effect bound as `d` with ordinal 0,
one connection reading the source and writing the sink.
-/

def sampleBufNames : List (List Char) := ["@SOURCE_0".data, "@SINK_0".data]

def sampleConns : List ConnDecl :=
  [⟨"d".data, ["@SOURCE_0".data], ["@SINK_0".data]⟩]

def sampleEffects : LoadedEffectsMap := [("d".data, 0)]

/-- The board context produced by constructing the identity board. -/
def sampleCtx : BoardState :=
  match initializeContext sampleBufNames sampleConns 32 sampleEffects with
  | .ok st => st
  | .error _ => ⟨[], [], [], []⟩

/-!
## C8: resolved connection indices lie in the three declared ranges
-/

/-- Membership in the union of the three index ranges of the data model:
internal `[0, 1024)`, external input `[1024, 1034)`, external output
`[2048, 2058)`. -/
def validIdx (i : ℕ) : Prop :=
  i < MAX_ALLOWABLE_BUF_DECLS ∨
  (FIRST_INPUT_IDX ≤ i ∧ i < FIRST_INPUT_IDX + MAX_ALLOWABLE_INPUTS) ∨
  (FIRST_OUTPUT_IDX ≤ i ∧ i < FIRST_OUTPUT_IDX + MAX_ALLOWABLE_OUTPUTS)

/-!
## GenericBypass (src/effects/bypass.rs)
-/

/-- The inner copy loop of `GenericBypass::execute` (and of
`MonoBypass::execute`): `write_buf.buf_write(j, read_buf.buf_read(j))` for
`j = 0, …, n-1`. -/
def copyLoop (r : Reader) (w : Writer) : BoardState → ℕ → BoardState
  | st, 0 => st
  | st, j + 1 =>
    let st1 := copyLoop r w st j
    bufWrite st1 w j (bufRead st1 r j)

/-- The inner zero loop: `write_buf.buf_write(j, 0.0)` for `j = 0, …, n-1`. -/
def zeroLoop (w : Writer) : BoardState → ℕ → BoardState
  | st, 0 => st
  | st, j + 1 => bufWrite (zeroLoop w st j) w j 0

/-- The paired input/output loop of `GenericBypass::execute`: for
`i = 0, …, minEnd-1`, acquire reader `inputs[i]` and writer `outputs[i]`
and copy `n` samples. -/
def gbPairedLoop (inputs outputs : List ℕ) (n : ℕ) :
    BoardState → ℕ → Option BoardState
  | st, 0 => some st
  | st, i + 1 => do
    let st1 ← gbPairedLoop inputs outputs n st i
    let r ← getBufferForRead st1 (inputs.getD i 0)
    let w ← getBufferForWrite st1 (outputs.getD i 0)
    some (copyLoop r w st1 n)

/-- The extra-outputs loop of `GenericBypass::execute` as written in the
source: for `i = minEnd, …, outputs.len()-1` it acquires the writer for
buffer index `i` itself (`context.get_buffer_for_write(i)`), not for
`outputs[i]`, and zeroes `n` samples through it. -/
def gbExtraLoop (n minEnd : ℕ) : BoardState → ℕ → Option BoardState
  | st, 0 => some st
  | st, k + 1 => do
    let st1 ← gbExtraLoop n minEnd st k
    let w ← getBufferForWrite st1 (minEnd + k)
    some (zeroLoop w st1 n)

/-- `GenericBypass::execute` (src/effects/bypass.rs): copy each paired
input to the corresponding output; when there are at least as many writes
as reads, zero through the writer obtained from the loop position `i`
(the source bug — see `specGenericBypassExecute` for the spec behavior). -/
def genericBypassExecute (st : BoardState) (connectionIdx n : ℕ) :
    Option BoardState := do
  let conn ← st.connections.get? connectionIdx
  let inputs := conn.inputsIdxs
  let outputs := conn.outputIdxs
  let minEnd := min inputs.length outputs.length
  let st1 ← gbPairedLoop inputs outputs n st minEnd
  if inputs.length = minEnd then
    gbExtraLoop n minEnd st1 (outputs.length - minEnd)
  else
    some st1

/-- Modelled from the spec: the extra-outputs loop as the spec describes it
("zeros any extra outputs", i.e. the buffers named by the extra entries of
the writes list): the writer is obtained from the resolved output index
`outputs[i]`. -/
def gbSpecExtraLoop (outputs : List ℕ) (n minEnd : ℕ) :
    BoardState → ℕ → Option BoardState
  | st, 0 => some st
  | st, k + 1 => do
    let st1 ← gbSpecExtraLoop outputs n minEnd st k
    let w ← getBufferForWrite st1 (outputs.getD (minEnd + k) 0)
    some (zeroLoop w st1 n)

/-- Modelled from the spec: `GenericBypass.execute` with the spec's
extra-outputs behavior (zero the remaining resolved output buffers). -/
def specGenericBypassExecute (st : BoardState) (connectionIdx n : ℕ) :
    Option BoardState := do
  let conn ← st.connections.get? connectionIdx
  let inputs := conn.inputsIdxs
  let outputs := conn.outputIdxs
  let minEnd := min inputs.length outputs.length
  let st1 ← gbPairedLoop inputs outputs n st minEnd
  if inputs.length = minEnd then
    gbSpecExtraLoop outputs n minEnd st1 (outputs.length - minEnd)
  else
    some st1

/-- A board with six internal buffers and one connection whose writes list
is longer than its reads list: reads `[]`, writes `["b5"]` (resolved output
index 5). -/
def c3BufNames : List (List Char) :=
  ["b0".data, "b1".data, "b2".data, "b3".data, "b4".data, "b5".data]

def c3Conns : List ConnDecl := [⟨"z".data, [], ["b5".data]⟩]

def c3Effects : LoadedEffectsMap := [("z".data, 0)]

/-- The constructed six-buffer board. -/
def c3Ctx : BoardState :=
  match initializeContext c3BufNames c3Conns 32 c3Effects with
  | .ok st => st
  | .error _ => ⟨[], [], [], []⟩

/-!
## Delay line (src/utils/delay_buf.rs) and basic delay (src/effects/delay/basic_delay.rs)
-/

/-- `nextafter(1.0f32, 0.0f32)`: the largest `f32` below 1. -/
def nextafterOneDown : ℚ := 1 - 1 / 2 ^ 24

/-- Model of `DelayBuffer`. -/
structure DelayBuffer where
  buf : SFB
  sampleRate : ℚ
  maxDelayMs : ℚ
  delayTimeMs : ℚ
  wholeDelaySamples : ℤ
  fractDelaySamples : ℚ

/-- `DelayBuffer::with_sample_rate_and_max_delay`: capacity
`(sample_rate * max_delay_ms / 1000) as usize`. -/
def DelayBuffer.withSampleRateAndMaxDelay (sr md : ℚ) : DelayBuffer :=
  ⟨SFB.withMaxCapacity (sr * md / 1000).floor.toNat, sr, md, 0, 0, 0⟩

/-- Modelled from the spec: `DelayBuffer::with_sample_rate` reads
`consts::MAX_DELAY_MS`, and src/consts.rs is absent from the sources — the
spec names the constant but not its value, so the maximum delay stays a
parameter `maxDelayMs` of the model. -/
def DelayBuffer.withSampleRate (sr maxDelayMs : ℚ) : DelayBuffer :=
  DelayBuffer.withSampleRateAndMaxDelay sr maxDelayMs

/-- `DelayBuffer::clamp_delay_sample_count`. -/
def DelayBuffer.clampDelaySampleCount (d : DelayBuffer) : DelayBuffer :=
  if d.wholeDelaySamples = (d.buf.capacity : ℤ) - 1 then
    { d with wholeDelaySamples := (d.buf.capacity : ℤ) - 2,
             fractDelaySamples := nextafterOneDown }
  else d

/-- Shared tail of `DelayBuffer::set_delay_time_ms` once the effective
`real_delay_time` is fixed: store the requested time, split whole/fractional
parts via `vmodf`, clamp the whole part into `[0, capacity]`, then apply
`clamp_delay_sample_count`. -/
def DelayBuffer.setDelayTail (d : DelayBuffer) (t rd : ℚ) : DelayBuffer :=
  let m := vmodf rd
  DelayBuffer.clampDelaySampleCount
    { d with delayTimeMs := t,
             fractDelaySamples := m.2,
             wholeDelaySamples := max 0 (min m.1 (d.buf.capacity : ℤ)) }

/-- `DelayBuffer::set_delay_time_ms`: negative times are ignored;
`real_delay = t * sample_rate / 1000`; if `real_delay as usize ≥ capacity`
either saturate to `capacity - 1` (clamp mode) or return unchanged. -/
def DelayBuffer.setDelayTimeMs (d : DelayBuffer) (t : ℚ) (clampHigh : Bool) :
    DelayBuffer :=
  if t < 0 then d
  else
    let rd := t * d.sampleRate / 1000
    if d.buf.capacity ≤ rd.floor.toNat then
      if clampHigh then d.setDelayTail t ((d.buf.capacity : ℚ) - 1)
      else d
    else d.setDelayTail t rd

/-- `DelayBuffer::read_delayed_sample`: linear interpolation between the
samples at offsets `limit - whole - 1` and `limit - whole - 2` (Rust `usize`
arithmetic; the subtraction stays in range for every state reachable with
`whole ≤ capacity - 2`, which `clamp_delay_sample_count` maintains). -/
def DelayBuffer.readDelayedSample (d : DelayBuffer) : ℚ :=
  lerp (d.buf.read (d.buf.limit - d.wholeDelaySamples.toNat - 1))
       (d.buf.read (d.buf.limit - d.wholeDelaySamples.toNat - 2))
       d.fractDelaySamples

/-- `DelayBuffer::write_sample`. -/
def DelayBuffer.writeSample (d : DelayBuffer) (s : ℚ) : DelayBuffer :=
  { d with buf := d.buf.write s }

/-- Model of `MonoDelayBasic`: its parameter vector (indices 0 =
`delay_time_ms`, 1 = `feedback_pct`, 2 = `wet_dry_pct`) and delay line. -/
structure DelayEff where
  params : List ParamValue
  delayBuf : DelayBuffer

/-- `MonoDelayBasic::new`: defaults `[F 1000, F 0, F 0.5]` and a fresh delay
line at the session sample rate (with the spec-modelled `MAX_DELAY_MS`
parameter `maxDelayMs`). -/
def DelayEff.new (sr maxDelayMs : ℚ) : DelayEff :=
  ⟨[.F 1000, .F 0, .F 0.5], DelayBuffer.withSampleRate sr maxDelayMs⟩

/-- `MonoDelayBasic::set_effect_parameter`: store the value (the `Vec`
index-assignment panics — `none` — out of range), and rebuild the delay
time when index 0 changes. -/
def DelayEff.setEffectParameter (e : DelayEff) (idx : ℕ) (v : ParamValue) :
    Option DelayEff :=
  if idx < e.params.length then
    let e1 : DelayEff := { e with params := e.params.set idx v }
    if idx = 0 then
      some { e1 with delayBuf := e1.delayBuf.setDelayTimeMs v.asFlt true }
    else some e1
  else none

/-- `basic_single_in_single_out` (src/effects/mod.rs): `none` models a
panic (connection index or external-slot indexing), `some (.inl st)` the
early returns (no outputs, or no inputs after writing `n` zeros), and
`some (.inr (r, w))` the reader/writer pair. -/
def basicSISO (st : BoardState) (ci n : ℕ) :
    Option (BoardState ⊕ (Reader × Writer)) :=
  match st.connections.get? ci with
  | none => none
  | some conn =>
    if conn.outputIdxs.length < 1 then some (.inl st)
    else
      match getBufferForWrite st (conn.outputIdxs.getD 0 0) with
      | none => none
      | some w =>
        if conn.inputsIdxs.length < 1 then some (.inl (zeroLoop w st n))
        else
          match getBufferForRead st (conn.inputsIdxs.getD 0 0) with
          | none => none
          | some r => some (.inr (r, w))

/-- The per-sample loop of `MonoDelayBasic::execute`:
`xn = read(i); yn = delay.read_delayed(); dn = xn + fb*yn;
delay.write(dn); write(i, dry*xn + wet*yn)`. -/
def delayLoop (r : Reader) (w : Writer) (wet dry fb : ℚ) :
    BoardState × DelayBuffer → ℕ → BoardState × DelayBuffer
  | sd, 0 => sd
  | sd, i + 1 =>
    let sd1 := delayLoop r w wet dry fb sd i
    let xn := bufRead sd1.1 r i
    let yn := sd1.2.readDelayedSample
    let dn := xn + fb * yn
    let db2 := sd1.2.writeSample dn
    let outv := dry * xn + wet * yn
    (bufWrite sd1.1 w i outv, db2)

/-- `MonoDelayBasic::execute`. -/
def delayExecute (e : DelayEff) (st : BoardState) (ci n : ℕ) :
    Option (DelayEff × BoardState) :=
  match basicSISO st ci n with
  | none => none
  | some (.inl st1) => some (e, st1)
  | some (.inr (r, w)) =>
    let wet := (e.params.getD 2 (.F 0)).asFlt
    let dry := 1 - wet
    let fb := (e.params.getD 1 (.F 0)).asFlt
    let sd := delayLoop r w wet dry fb (st, e.delayBuf) n
    some ({ e with delayBuf := sd.2 }, sd.1)

/-- The Delay/Basic unit of the board test scenario: created at sample rate
1000 and configured `delay_time_ms = 2`, `feedback_pct = 0`,
`wet_dry_pct = 1` through the `set_effect_parameter` path. -/
def c4Delay (maxDelayMs : ℚ) : Option DelayEff := do
  let e1 ← (DelayEff.new 1000 maxDelayMs).setEffectParameter 0 (.F 2)
  let e2 ← e1.setEffectParameter 1 (.F 0)
  e2.setEffectParameter 2 (.F 1)

/-- The identity board with the source bound to `x` and the sink bound to
host memory `out0`. -/
def c4Board (x out0 : ℕ → ℚ) : Option BoardState := do
  let st ← (initializeContext sampleBufNames sampleConns 32 sampleEffects).toOption
  let st1 ← bindSource st 0 (some x)
  bindSink st1 0 (some out0)

/-- The input block `[1, 0, 0, 0, 0]` of the delay scenario. -/
def c4Input : ℕ → ℚ := fun i => if i = 0 then 1 else 0

/-- The board of the delay scenario as a value (for witnesses). -/
def c4BoardState : BoardState :=
  (c4Board c4Input (fun _ => 0)).getD ⟨[], [], [], []⟩

/-- The value that `c4Delay 1000` produces: parameters
`[delay_time_ms = 2, feedback = 0, wet = 1]`, a fresh 1000-slot line,
whole delay 2, fractional delay 0 (see `c4Delay_eval`). -/
def c4DelayUnit : DelayEff :=
  ⟨[.F 2, .F 0, .F 1], ⟨SFB.withMaxCapacity 1000, 1000, 1000, 2, 2, 0⟩⟩

/-!
## Engine facade (src/otters.rs) and parameter plane (src/param.rs)
-/

/-- `MonoBypass::execute` (src/effects/bypass.rs). -/
def monoBypassExecute (st : BoardState) (ci n : ℕ) : Option BoardState :=
  match basicSISO st ci n with
  | none => none
  | some (.inl st1) => some st1
  | some (.inr (r, w)) => some (copyLoop r w st n)

/-- The effect units modelled in this development (a faithful subset of the
factory catalog; `frolic` is generic over the unit). -/
inductive EffectUnit
  | monoBypass
  | genericBypass
  | delayBasic (e : DelayEff)

/-- `AudioEffect::execute` dispatch for the modelled units. -/
def EffectUnit.exec :
    EffectUnit → BoardState → ℕ → ℕ → Option (EffectUnit × BoardState)
  | .monoBypass, st, ci, n =>
    (monoBypassExecute st ci n).map (fun st1 => (.monoBypass, st1))
  | .genericBypass, st, ci, n =>
    (genericBypassExecute st ci n).map (fun st1 => (.genericBypass, st1))
  | .delayBasic e, st, ci, n =>
    (delayExecute e st ci n).map (fun p => (.delayBasic p.1, p.2))

/-- `AudioEffect::set_effect_parameter` dispatch (a no-op for the bypasses,
as in the source). -/
def EffectUnit.setParam : EffectUnit → ℕ → ParamValue → Option EffectUnit
  | .monoBypass, _, _ => some .monoBypass
  | .genericBypass, _, _ => some .genericBypass
  | .delayBasic e, i, v => (e.setEffectParameter i v).map .delayBasic

/-- The parameter vector of a unit (the state `set_param` mutates). -/
def EffectUnit.paramsOf : EffectUnit → List ParamValue
  | .monoBypass => []
  | .genericBypass => []
  | .delayBasic e => e.params

/-- Model of `Otters` (src/otters.rs).  `asyncQueue` is the single-producer
single-consumer parameter channel installed by `setup_async_param_updater`.
Modelled from the spec: the channel type `RTQueue` lives in
src/utils/async_utils.rs, which is absent from the sources; the spec
describes it as a lock-free FIFO of `(global_idx, ParameterValue)`
messages, modelled here as a list (send appends at the back). -/
structure OttersModel where
  context : BoardState
  effects : List EffectUnit
  enableInfo : List Bool
  asyncQueue : List (ℕ × ParamValue)

/-- `OttersParamModifierContext::set_flt_param_value`: enqueue a float
update on the channel. -/
def setFltParamValue (m : OttersModel) (globalIdx : ℕ) (v : ℚ) : OttersModel :=
  { m with asyncQueue := m.asyncQueue ++ [(globalIdx, .F v)] }

/-- `OttersParamModifierContext::set_int_param_value`. -/
def setIntParamValue (m : OttersModel) (globalIdx : ℕ) (v : ℤ) : OttersModel :=
  { m with asyncQueue := m.asyncQueue ++ [(globalIdx, .N v)] }

/-- The loop body of `Otters::frolic`: for each connection index `i` (in
declaration order), dispatch to `effects[connection.ordinal].execute` when
enabled, else to the shared disabled-effect `GenericBypass`.  `none` models
the `Vec`-indexing panics.  The body touches only the board context and the
executed effect — in particular it never reads `async_param_update_queue`
and never calls `set_effect_parameter`, exactly as in the source. -/
def frolicGo (n : ℕ) : OttersModel → ℕ → Option OttersModel
  | m, 0 => some m
  | m, i + 1 => do
    let m1 ← frolicGo n m i
    let conn ← m1.context.connections.get? i
    let en ← m1.enableInfo.get? conn.ordinal
    if en then
      let eff ← m1.effects.get? conn.ordinal
      let p ← eff.exec m1.context i n
      some { m1 with context := p.2, effects := m1.effects.set conn.ordinal p.1 }
    else
      let ctx1 ← genericBypassExecute m1.context i n
      some { m1 with context := ctx1 }

/-- `Otters::frolic`. -/
def frolic (m : OttersModel) (n : ℕ) : Option OttersModel :=
  frolicGo n m m.context.connections.length

/-- `k` consecutive `frolic` calls. -/
def frolicN (m : OttersModel) (n : ℕ) : ℕ → Option OttersModel
  | 0 => some m
  | k + 1 => do
    let m1 ← frolicN m n k
    frolic m1 n

/-- An empty engine (no connections), used as a witness input. -/
def emptyEngine : OttersModel := ⟨⟨[], [], [], []⟩, [], [], []⟩

/-!
## Biquad filters (src/utils/biquad.rs, src/effects/biquad_filter.rs)

The coefficient formulas use `f32` trigonometry (`vcosf`, `vsinf`, `vtanf`)
and `db_to_linear`; these transcendental kernels, and the `f32` constants
`PI` / `TWO_PI`, have no exact rational value, so they are abstracted into a
`TrigModel` parameter.  Every other step of the coefficient computation is
embedded exactly.
-/

/-- Abstract transcendental kernels: `vcosf`, `vsinf`, `vtanf` (from
src/utils/arch), `db_to_linear` (src/utils/mathutils.rs), and the `f32`
values of `π` and `2π`. -/
structure TrigModel where
  vcos : ℚ → ℚ
  vsin : ℚ → ℚ
  vtan : ℚ → ℚ
  dbToLinear : ℚ → ℚ
  piV : ℚ
  twoPiV : ℚ

/-- `IIRFilterType` (src/utils/biquad.rs), including the sentinel
`__NUM_IIR_FILTER_TYPES` variant (discriminant 10), which the
`FromPrimitive` derive also maps. -/
inductive IIRType
  | firstOrderLowPass
  | secondOrderLowPass
  | firstOrderHighPass
  | secondOrderHighPass
  | secondOrderBandPass
  | secondOrderBandStop
  | firstOrderAllPass
  | secondOrderAllPass
  | firstOrderLowShelf
  | firstOrderHighShelf
  | numIIRFilterTypes
  deriving DecidableEq

/-- The derived `FromPrimitive::from_i32` for `IIRFilterType`. -/
def IIRType.fromI32 (z : ℤ) : Option IIRType :=
  if z = 0 then some .firstOrderLowPass
  else if z = 1 then some .secondOrderLowPass
  else if z = 2 then some .firstOrderHighPass
  else if z = 3 then some .secondOrderHighPass
  else if z = 4 then some .secondOrderBandPass
  else if z = 5 then some .secondOrderBandStop
  else if z = 6 then some .firstOrderAllPass
  else if z = 7 then some .secondOrderAllPass
  else if z = 8 then some .firstOrderLowShelf
  else if z = 9 then some .firstOrderHighShelf
  else if z = 10 then some .numIIRFilterTypes
  else none

/-- `BoardEffectConfigParameterValue::as_enum::<IIRFilterType>`
(src/conf.rs): round floats, map through `from_i32`, default to
`FirstOrderLowPass` (the `Default` impl) on a miss. -/
def ParamValue.asEnumIIR (v : ParamValue) : IIRType :=
  (match v with
   | .N z => IIRType.fromI32 z
   | .F q => IIRType.fromI32 (rustRound q)).getD .firstOrderLowPass

def DEFAULT_Q : ℚ := 0.707

/-- `BiquadCoefficients` (field order as in the source). -/
structure BiquadCoefficients where
  a0 : ℚ
  a1 : ℚ
  a2 : ℚ
  b1 : ℚ
  b2 : ℚ
  c0 : ℚ
  d0 : ℚ
  cutoff : ℚ
  q : ℚ
  sampleRate : ℚ
  shelfGainDb : ℚ
  iirType : IIRType

/-- `BiquadCoefficients::first_order_lpf`. -/
def firstOrderLPF (tr : TrigModel) (cutoff sampleRate : ℚ) :
    BiquadCoefficients :=
  let θ := tr.twoPiV * cutoff / sampleRate
  let γ := tr.vcos θ / (1 + tr.vsin θ)
  ⟨(1 - γ) / 2, (1 - γ) / 2, 0, -γ, 0, 1, 0,
   cutoff, DEFAULT_Q, sampleRate, 0, .firstOrderLowPass⟩

/-- `BiquadCoefficients::second_order_lpf`. -/
def secondOrderLPF (tr : TrigModel) (cutoff sampleRate q : ℚ) :
    BiquadCoefficients :=
  let θ := tr.twoPiV * cutoff / sampleRate
  let d2 := 1 / q / 2
  let β := (1 / 2) * (1 - d2 * tr.vsin θ) / (1 + d2 * tr.vsin θ)
  let γ := (1 / 2 + β) * tr.vcos θ
  let a0 := (1 / 2 + β - γ) / 2
  ⟨a0, 2 * a0, a0, -2 * γ, 2 * β, 1, 0,
   cutoff, q, sampleRate, 0, .secondOrderLowPass⟩

/-- `BiquadCoefficients::first_order_hpf`. -/
def firstOrderHPF (tr : TrigModel) (cutoff sampleRate : ℚ) :
    BiquadCoefficients :=
  let θ := tr.twoPiV * cutoff / sampleRate
  let γ := tr.vcos θ / (1 + tr.vsin θ)
  let a0 := (1 + γ) / 2
  ⟨a0, -a0, 0, -γ, 0, 1, 0,
   cutoff, DEFAULT_Q, sampleRate, 0, .firstOrderHighPass⟩

/-- `BiquadCoefficients::second_order_hpf`. -/
def secondOrderHPF (tr : TrigModel) (cutoff sampleRate q : ℚ) :
    BiquadCoefficients :=
  let θ := tr.twoPiV * cutoff / sampleRate
  let d2 := 1 / q / 2
  let β := (1 / 2) * (1 - d2 * tr.vsin θ) / (1 + d2 * tr.vsin θ)
  let γ := (1 / 2 + β) * tr.vcos θ
  let a0 := (1 / 2 + β + γ) / 2
  ⟨a0, -2 * a0, a0, -2 * γ, 2 * β, 1, 0,
   cutoff, q, sampleRate, 0, .secondOrderHighPass⟩

/-- `BiquadCoefficients::second_order_bpf`. -/
def secondOrderBPF (tr : TrigModel) (corner sampleRate q : ℚ) :
    BiquadCoefficients :=
  let k := tr.vtan (tr.piV * corner / sampleRate)
  let δ := k * k * q + k + q
  ⟨k / δ, 0, -k / δ, 2 * q * (k * k - 1) / δ, (k * k * q - k + q) / δ, 1, 0,
   corner, q, sampleRate, 0, .secondOrderBandPass⟩

/-- `BiquadCoefficients::second_order_bsf`. -/
def secondOrderBSF (tr : TrigModel) (corner sampleRate q : ℚ) :
    BiquadCoefficients :=
  let k := tr.vtan (tr.piV * corner / sampleRate)
  let δ := k * k * q + k + q
  let a0 := q * (k * k + 1) / δ
  let a1 := 2 * q * (k * k - 1) / δ
  ⟨a0, a1, a0, a1, (k * k * q - k + q) / δ, 1, 0,
   corner, q, sampleRate, 0, .secondOrderBandStop⟩

/-- `BiquadCoefficients::first_order_apf`. -/
def firstOrderAPF (tr : TrigModel) (corner sampleRate : ℚ) :
    BiquadCoefficients :=
  let t := tr.vtan (tr.piV * corner / sampleRate)
  let α := (t - 1) / (t + 1)
  ⟨α, 1, 0, α, 0, 1, 0, corner, DEFAULT_Q, sampleRate, 0, .firstOrderAllPass⟩

/-- `BiquadCoefficients::second_order_apf`. -/
def secondOrderAPF (tr : TrigModel) (corner sampleRate q : ℚ) :
    BiquadCoefficients :=
  let t := tr.vtan (corner * tr.piV / q / sampleRate)
  let α := (t - 1) / (t + 1)
  let β := -(tr.vcos (tr.twoPiV * corner / sampleRate))
  ⟨-α, β * (1 - α), 1, β * (1 - α), -α, 1, 0,
   corner, q, sampleRate, 0, .secondOrderAllPass⟩

/-- `BiquadCoefficients::first_order_low_shelf`. -/
def firstOrderLowShelf (tr : TrigModel) (shelfFreq sampleRate gainDb : ℚ) :
    BiquadCoefficients :=
  let θ := tr.twoPiV * shelfFreq / sampleRate
  let μ := tr.dbToLinear gainDb
  let δ := (4 / (1 + μ)) * tr.vtan (θ / 2)
  let γ := (1 - δ) / (1 + δ)
  ⟨(1 - γ) / 2, (1 - γ) / 2, 0, -γ, 0, μ - 1, 1,
   shelfFreq, DEFAULT_Q, sampleRate, gainDb, .firstOrderLowShelf⟩

/-- `BiquadCoefficients::first_order_high_shelf`. -/
def firstOrderHighShelf (tr : TrigModel) (shelfFreq sampleRate gainDb : ℚ) :
    BiquadCoefficients :=
  let θ := tr.twoPiV * shelfFreq / sampleRate
  let μ := tr.dbToLinear gainDb
  let δ := ((1 + μ) / 4) * tr.vtan (θ / 2)
  let γ := (1 - δ) / (1 + δ)
  let a0 := (1 + γ) / 2
  ⟨a0, -a0, 0, -γ, 0, μ - 1, 1,
   shelfFreq, DEFAULT_Q, sampleRate, gainDb, .firstOrderHighShelf⟩

/-- `BiquadCoefficients::recreate`: rebuild the full coefficient set from
the stored parameters for the current filter kind.  The sentinel variant
panics (`none`). -/
def recreate (tr : TrigModel) (c : BiquadCoefficients) :
    Option BiquadCoefficients :=
  match c.iirType with
  | .firstOrderLowPass => some (firstOrderLPF tr c.cutoff c.sampleRate)
  | .secondOrderLowPass => some (secondOrderLPF tr c.cutoff c.sampleRate c.q)
  | .firstOrderHighPass => some (firstOrderHPF tr c.cutoff c.sampleRate)
  | .secondOrderHighPass => some (secondOrderHPF tr c.cutoff c.sampleRate c.q)
  | .firstOrderAllPass => some (firstOrderAPF tr c.cutoff c.sampleRate)
  | .secondOrderAllPass => some (secondOrderAPF tr c.cutoff c.sampleRate c.q)
  | .secondOrderBandPass => some (secondOrderBPF tr c.cutoff c.sampleRate c.q)
  | .secondOrderBandStop => some (secondOrderBSF tr c.cutoff c.sampleRate c.q)
  | .firstOrderLowShelf =>
    some (firstOrderLowShelf tr c.cutoff c.sampleRate c.shelfGainDb)
  | .firstOrderHighShelf =>
    some (firstOrderHighShelf tr c.cutoff c.sampleRate c.shelfGainDb)
  | .numIIRFilterTypes => none

/-- Model of `Biquad`: coefficients plus the `x` / `y` history buffers. -/
structure Biquad where
  coefficients : BiquadCoefficients
  x : TinyBuf
  y : TinyBuf

/-- `Biquad::new`. -/
def Biquad.new (c : BiquadCoefficients) : Biquad := ⟨c, TinyBuf.new, TinyBuf.new⟩

/-- `Biquad::change_cutoff` (the `mem::swap` dance nets out to replacing
`coefficients` with `set_cutoff`'s result; `x`, `y` untouched). -/
def Biquad.changeCutoff (tr : TrigModel) (b : Biquad) (v : ℚ) : Option Biquad :=
  (recreate tr { b.coefficients with cutoff := v }).map
    (fun c => { b with coefficients := c })

/-- `Biquad::change_type`. -/
def Biquad.changeType (tr : TrigModel) (b : Biquad) (t : IIRType) : Option Biquad :=
  (recreate tr { b.coefficients with iirType := t }).map
    (fun c => { b with coefficients := c })

/-- `Biquad::change_shelf_gain`. -/
def Biquad.changeShelfGain (tr : TrigModel) (b : Biquad) (v : ℚ) : Option Biquad :=
  (recreate tr { b.coefficients with shelfGainDb := v }).map
    (fun c => { b with coefficients := c })

/-- `Biquad::change_q`. -/
def Biquad.changeQ (tr : TrigModel) (b : Biquad) (v : ℚ) : Option Biquad :=
  (recreate tr { b.coefficients with q := v }).map
    (fun c => { b with coefficients := c })

/-- The Direct-Form-I output formula of `Biquad::filter`. -/
def biquadFormula (c : BiquadCoefficients) (x y : TinyBuf) (input : ℚ) : ℚ :=
  c.c0 * (c.a0 * input + c.a1 * x.z1 + c.a2 * x.z2
    - c.b1 * y.z1 - c.b2 * y.z2) + c.d0 * input

/-- `Biquad::filter`: compute the DF-I output, then push `input` / `result`
into the history buffers. -/
def Biquad.filter (b : Biquad) (input : ℚ) : ℚ × Biquad :=
  let result := biquadFormula b.coefficients b.x b.y input
  (result, { b with x := b.x.write input, y := b.y.write result })

/-- The per-parameter coefficient-field update performed before `recreate`
by `set_cutoff` / `change_type` / `set_shelf_gain_db` / `set_q`, keyed by
the effect's parameter index (0 = filter type, 1 = corner frequency,
2 = boost/cut dB, 3 = q). -/
def coeffFieldUpdate (c : BiquadCoefficients) (idx : ℕ) (v : ParamValue) :
    BiquadCoefficients :=
  if idx = 1 then { c with cutoff := v.asFlt }
  else if idx = 0 then { c with iirType := v.asEnumIIR }
  else if idx = 2 then { c with shelfGainDb := v.asFlt }
  else if idx = 3 then { c with q := v.asFlt }
  else c

/-- Model of the `BiquadFilter` effect (src/effects/biquad_filter.rs). -/
structure BiquadFilterEff where
  params : List ParamValue
  biquad : Biquad

/-- `BiquadFilter::new`: defaults
`[filter_type = N 0, corner_freq_hz = F 1024, boost_cut_db = F 0, q = F 0.707]`
and a first-order low-pass at the default corner. -/
def BiquadFilterEff.new (tr : TrigModel) (sampleRate : ℚ) : BiquadFilterEff :=
  ⟨[.N 0, .F 1024, .F 0, .F 0.707], Biquad.new (firstOrderLPF tr 1024 sampleRate)⟩

/-- `BiquadFilter::set_effect_parameter`: store the value (`Vec` index
assignment panics out of range), then dispatch to the matching `change_*`
in the source's order. -/
def BiquadFilterEff.setEffectParameter (tr : TrigModel) (f : BiquadFilterEff)
    (idx : ℕ) (v : ParamValue) : Option BiquadFilterEff :=
  if idx < f.params.length then
    let f1 : BiquadFilterEff := { f with params := f.params.set idx v }
    if idx = 1 then
      (f1.biquad.changeCutoff tr v.asFlt).map (fun b => { f1 with biquad := b })
    else if idx = 0 then
      (f1.biquad.changeType tr v.asEnumIIR).map (fun b => { f1 with biquad := b })
    else if idx = 2 then
      (f1.biquad.changeShelfGain tr v.asFlt).map (fun b => { f1 with biquad := b })
    else if idx = 3 then
      (f1.biquad.changeQ tr v.asFlt).map (fun b => { f1 with biquad := b })
    else some f1
  else none

/-- A concrete trig model for counterexamples and witnesses (the refuted
behavior is independent of the transcendental kernels). -/
def trivialTrig : TrigModel := ⟨id, id, id, id, 1, 1⟩


/-!
## Phase vocoder (src/effects/vocoder2.rs, src/utils/ringbuf.rs)

The `Vocoder/Bypass` factory entry (src/effects/mod.rs) constructs
`PhaseVocoder::new(1024, 256, FFTWindowType::Hamming, VocoderBypass::new())`:
frame size 1024, hop size 256.  Both `FFTCollectionBuffer` rings are created
with length `frame_size << 2 = 4096` (a power of two; `advance_*_idx` wraps
with the mask `4095`, which on a 4096-slot ring is exactly `% 4096`) and the
output ring's write cursor is moved to `frame_size = 1024` by
`set_write_idx` (1024 < 4096, so its clamp does not trigger).  Samples are
modelled over a generic field `F` so that the structural theorems apply both
to exact rationals and to the real-valued window. -/

/-- `FFTCollectionBuffer::rewind_read_idx` / `rewind_write_idx`: move a ring
cursor back `count` slots in a `len`-slot ring (`if count <= idx { idx -
count } else { len - 1 - (count - idx - 1) }`). -/
def rewindIdx (len cursor count : ℕ) : ℕ :=
  if count ≤ cursor then cursor - count else len - 1 - (count - cursor - 1)

/-- The mutable state of a `PhaseVocoder`: the input and output collection
rings with their read/write cursors, and `accumulated_sample_count`. -/
structure VocState (F : Type) where
  inData : ℕ → F
  inRead : ℕ
  inWrite : ℕ
  outData : ℕ → F
  outRead : ℕ
  outWrite : ℕ
  acc : ℕ

/-- `PhaseVocoder::new` with frame 1024 / hop 256: zeroed 4096-slot rings,
all cursors 0 except the output write cursor, which `set_write_idx` places
at `frame_size = 1024`; `accumulated_sample_count = 0`. -/
def vocInit (F : Type) [Field F] : VocState F :=
  ⟨fun _ => 0, 0, 0, fun _ => 0, 0, 1024, 0⟩

/-- Modelled from the spec: the spectral round trip of `Vocoder/Bypass`.
`fft_context.forward()` and `backward()` are FFTW `c2c` plans of length
`frame_size = 1024`; FFTW transforms are unnormalized, so
backward-after-forward multiplies every sample by the length.
`VocoderBypass::execute` copies the spectrum bin-for-bin into the inverse
transform's input and `VocoderBypass::post_process` is a no-op, so the
windowed frame comes back scaled by exactly 1024. -/
def bypassRoundTrip {F : Type} [Field F] (v : ℕ → F) : ℕ → F :=
  fun i => (1024 : F) * v i

/-- The fft collection loop of `execute_one`: iteration `i` reads the input
ring at the read cursor (which started the frame at `r < 4096` and has been
advanced `i` times, so it sits at `(r + i) % 4096`) and stores
`sample * analysis_window[i]` into `fft_input_buf[i]`. -/
def collectFrame {F : Type} [Field F] (inData : ℕ → F) (r : ℕ) (w : ℕ → F) :
    ℕ → F :=
  fun i => inData ((r + i) % 4096) * w i

/-- The `overlap_add` loop, one iteration per recursion step: add
`spectral[i] * inv_gain_correction` onto the output ring cell under the
write cursor (`set_at_write_idx(output_buf[i].re * inv_gain_correction +
current_sample)`), then advance the cursor with the power-of-two wrap.
`n` counts the remaining iterations, `cur` is the cursor, `i` the frame
position. -/
def oaAddGo {F : Type} [Field F] (sp : ℕ → F) (g : F) :
    ℕ → (ℕ → F) → ℕ → ℕ → (ℕ → F) × ℕ
  | 0, d, cur, _ => (d, cur)
  | n + 1, d, cur, i =>
      oaAddGo sp g n (Function.update d cur (sp i * g + d cur))
        ((cur + 1) % 4096) (i + 1)

/-- `overlap_add` over a whole frame of 1024 spectral samples. -/
def overlapAdd {F : Type} [Field F] (sp : ℕ → F) (g : F) (d : ℕ → F)
    (cur : ℕ) : (ℕ → F) × ℕ :=
  oaAddGo sp g 1024 d cur 0

/-- `PhaseVocoder::execute_one` for frame 1024 / hop 256: read (and return)
the output ring cell under the read cursor, zero it, advance the read
cursor; store the incoming sample in the input ring, advance its write
cursor; bump `accumulated_sample_count`, and when it reaches the frame size
run a frame: window the last 1024 input samples (the input read cursor ends
up rewound by `frame - hop = 768`, i.e. advanced by 1024 then rewound),
round-trip them through the fft and the bypass spectral processor,
overlap-add the result into the output ring (write cursor likewise rewound
by 768 afterwards), and drop the accumulated count by the hop size. -/
def vocStep {F : Type} [Field F] (w : ℕ → F) (g : F) (s : VocState F)
    (xv : F) : F × VocState F :=
  let result := s.outData s.outRead
  let outData1 := Function.update s.outData s.outRead 0
  let outRead1 := (s.outRead + 1) % 4096
  let inData1 := Function.update s.inData s.inWrite xv
  let inWrite1 := (s.inWrite + 1) % 4096
  let acc1 := s.acc + 1
  if acc1 = 1024 then
    let fftOut := bypassRoundTrip (collectFrame inData1 s.inRead w)
    let inRead1 := rewindIdx 4096 ((s.inRead + 1024) % 4096) 768
    let oa := overlapAdd fftOut g outData1 s.outWrite
    (result,
      ⟨inData1, inRead1, inWrite1, oa.1, outRead1, rewindIdx 4096 oa.2 768,
        acc1 - 256⟩)
  else
    (result, ⟨inData1, s.inRead, inWrite1, outData1, outRead1, s.outWrite,
      acc1⟩)

/-- State of the vocoder after feeding it the samples `x 0, …, x (t-1)`. -/
def vocRun {F : Type} [Field F] (w : ℕ → F) (g : F) (x : ℕ → F) :
    ℕ → VocState F
  | 0 => vocInit F
  | t + 1 => (vocStep w g (vocRun w g x t) (x t)).2

/-- The `t`-th output sample of the vocoder (the value `execute_one`
returns for the input sample `x t`). -/
def vocOut {F : Type} [Field F] (w : ℕ → F) (g : F) (x : ℕ → F) (t : ℕ) :
    F :=
  (vocStep w g (vocRun w g x t) (x t)).1

/-- Number of fft frames the vocoder has completed after `t` samples: the
`accumulated_sample_count` after `t` samples is `t - 256 * fCount t`, and a
frame fires exactly when it reaches 1024. -/
def fCount : ℕ → ℕ
  | 0 => 0
  | t + 1 => if t + 1 - 256 * fCount t = 1024 then fCount t + 1 else fCount t

/-- The pending overlap-add content of the output ring cell that will be
consumed as output sample `T`, once `f` frames have fired: frame `j` reads
input samples `x (256j) … x (256j + 1023)`, windows them, and (after the
factor-1024 spectral round trip, scaled by `inv_gain_correction = g`)
adds its position-`i` result onto the cell for output sample
`1024 + 256j + i`. -/
def pendSum {F : Type} [Field F] (w : ℕ → F) (g : F) (x : ℕ → F)
    (f T : ℕ) : F :=
  (1024 : F) * g * x (T - 1024) *
    (Finset.range f).sum fun j =>
      if 1024 + 256 * j ≤ T ∧ T < 2048 + 256 * j then w (T - 1024 - 256 * j)
      else 0

/-- The analysis-window accumulation that scales output sample `1024 + m`:
the sum of `w (m - 256j)` over the (up to four) frames `j` whose 1024-wide
output span covers that sample. -/
def vocAccum {F : Type} [Field F] (w : ℕ → F) (m : ℕ) : F :=
  (Finset.range (m / 256 + 1)).sum fun j =>
    if m - 256 * j < 1024 then w (m - 256 * j) else 0

/-- `create_window` for `FFTWindowType::Hamming` and frame 1024:
`0.54 - 0.46 * vcosf((n * TWO_PI) / frame_size)`, with the trig kernel and
the value of `TWO_PI` passed in as parameters. -/
def hammingWindow {F : Type} [Field F] (vcos : F → F) (twoPi : F) :
    ℕ → F :=
  fun i => 0.54 - 0.46 * vcos (((i : F) * twoPi) / 1024)

/-- The second component `create_window` returns:
`(1 - overlap_pct) / (fold of + over the window entries)`, where
`PhaseVocoder::new` passes `overlap_pct = overlap_factor =
1 - hop/frame = 1 - 256/1024`. -/
def invGainCorrection {F : Type} [Field F] (w : ℕ → F) : F :=
  (1 - (1 - (256 : F) / 1024)) / (Finset.range 1024).sum w


/-!
## Theorems
-/

theorem cyclicWrites_spec {α : Type} (z : α) {c : ℕ} (hc : 0 < c) (x : ℕ → α)
    (n : ℕ) {s : ℕ} (hs : s < c) :
    cyclicWrites z c x n s = if s < n then x (s + c * ((n - 1 - s) / c)) else z := by
  induction n with
  | zero => simp [cyclicWrites]
  | succ n ih =>
    by_cases hsn : s = n % c
    · subst hsn
      have h1 : n % c < n + 1 := Nat.lt_succ_of_le (Nat.mod_le n c)
      obtain ⟨q, hq⟩ : ∃ q, n / c = q := ⟨_, rfl⟩
      obtain ⟨A, hA⟩ : ∃ A, c * q = A := ⟨_, rfl⟩
      have hd : n % c + A = n := by rw [← hA, ← hq]; exact Nat.mod_add_div n c
      have hsub : n - n % c = c * q := by omega
      have h2 : n % c + c * ((n + 1 - 1 - n % c) / c) = n := by
        have hstep : (n + 1 - 1 - n % c) / c = q := by
          simp only [Nat.add_sub_cancel]
          rw [hsub, Nat.mul_div_cancel_left _ hc]
        rw [hstep]; omega
      rw [cyclicWrites, Function.update_same, if_pos h1]
      exact congrArg x h2.symm
    · rw [cyclicWrites, Function.update_noteq hsn, ih]
      by_cases hlt : s < n
      · have hne : ¬ c ∣ (n - s) := by
          intro hdvd
          apply hsn
          have h1 : s % c = n % c := by
            have h2 : n = s + (n - s) := by omega
            rcases hdvd with ⟨k, hk⟩
            rw [h2, hk, Nat.add_mul_mod_self_left]
          rwa [Nat.mod_eq_of_lt hs] at h1
        have harith : (n - s) = (n - 1 - s) + 1 := by omega
        have hdivs : (n - s) / c = (n - 1 - s) / c := by
          rw [harith, Nat.succ_div_of_not_dvd]
          rwa [← harith]
        rw [if_pos hlt, if_pos (Nat.lt_succ_of_lt hlt)]
        have hgoal : (n + 1 - 1 - s) = n - s := by omega
        rw [hgoal, hdivs]
      · have hsn2 : ¬ s < n + 1 := by
          intro hcon
          have : s = n := by omega
          subst this
          exact hsn (Nat.mod_eq_of_lt hs).symm
        rw [if_neg hlt, if_neg hsn2]

/-- Reading back the most recent write to a slot: if `m < n` and the writes
after `m` have not yet lapped the buffer (`n ≤ m + c`), slot `m % c`
still holds `x m`. -/
theorem cyclicWrites_last {α : Type} (z : α) {c : ℕ} (hc : 0 < c) (x : ℕ → α)
    {n m : ℕ} (hm : m < n) (hlap : n ≤ m + c) :
    cyclicWrites z c x n (m % c) = x m := by
  have hs : m % c < c := Nat.mod_lt _ hc
  rw [cyclicWrites_spec z hc x n hs]
  have hlt : m % c < n := lt_of_le_of_lt (Nat.mod_le m c) hm
  obtain ⟨q, hq⟩ : ∃ q, m / c = q := ⟨_, rfl⟩
  obtain ⟨A, hA⟩ : ∃ A, c * q = A := ⟨_, rfl⟩
  have hd : m % c + A = m := by rw [← hA, ← hq]; exact Nat.mod_add_div m c
  have hlo : q * c ≤ n - 1 - m % c := by rw [mul_comm, hA]; omega
  have hhi : n - 1 - m % c < (q + 1) * c := by
    have he : (q + 1) * c = A + c := by rw [← hA]; ring
    omega
  have hdiv : (n - 1 - m % c) / c = q := Nat.div_eq_of_lt_le hlo hhi
  rw [if_pos hlt, hdiv, hA]
  exact congrArg x hd

/-- A slot that no write in `0, …, n-1` has targeted still holds `z`. -/
theorem cyclicWrites_untouched {α : Type} (z : α) {c : ℕ} (hc : 0 < c)
    (x : ℕ → α) {n s : ℕ} (hs : s < c) (h : ∀ m < n, m % c ≠ s) :
    cyclicWrites z c x n s = z := by
  rw [cyclicWrites_spec z hc x n hs]
  by_cases hlt : s < n
  · exfalso
    have hj : s + c * ((n - 1 - s) / c) < n := by
      have h2 : c * ((n - 1 - s) / c) ≤ n - 1 - s := Nat.mul_div_le (n - 1 - s) c
      omega
    exact h _ hj (by rw [Nat.add_mul_mod_self_left, Nat.mod_eq_of_lt hs])
  · rw [if_neg hlt]

theorem SFB.writeSeq_fresh {c : ℕ} (hc : 0 < c) (x : ℕ → ℚ) (n : ℕ) :
    (SFB.withMaxCapacity c).writeSeq x n =
      ⟨cyclicWrites 0 c x n, c, c, n % c⟩ := by
  induction n with
  | zero => simp [SFB.writeSeq, SFB.withMaxCapacity, cyclicWrites, Nat.mod_eq_of_lt hc]
  | succ n ih =>
    rw [SFB.writeSeq, ih]
    simp only [SFB.write, cyclicWrites]
    congr 1
    rw [Nat.mod_add_mod]

theorem readAfterBlock_eq {c : ℕ} (hc : 0 < c) (x : ℕ → ℚ) {n : ℕ}
    (hn : n ≤ c) (i : ℕ) (hi : i < n) :
    SFB.readAfterBlock c x n i =
      if n + i < c then 0 else x (n + i - c) := by
  rw [SFB.readAfterBlock, SFB.writeSeq_fresh hc, SFB.read]
  simp only
  by_cases h : n + i < c
  · rw [if_pos h]
    have hnc : n % c = n := Nat.mod_eq_of_lt (by omega)
    have hmod : (n % c + i) % c = n + i := by
      rw [hnc, Nat.mod_eq_of_lt (by omega)]
    rw [hmod]
    refine cyclicWrites_untouched 0 hc x (by omega) (fun m hm => ?_)
    rw [Nat.mod_eq_of_lt (by omega)]
    omega
  · rw [if_neg h]
    have hm : n + i - c < n := by omega
    have hmod : (n % c + i) % c = (n + i - c) % c := by
      rw [Nat.mod_add_mod]
      have hrw : n + i = (n + i - c) + c := by omega
      conv_lhs => rw [hrw]
      rw [Nat.add_mod_right]
    rw [hmod]
    exact cyclicWrites_last 0 hc x hm (by omega)

theorem sampleCtx_ok :
    initializeContext sampleBufNames sampleConns 32 sampleEffects =
      .ok sampleCtx := rfl

theorem sampleCtx_connections :
    sampleCtx.connections = [⟨0, [1024], [2048]⟩] := rfl

theorem sampleCtx_externals :
    sampleCtx.externalIns = List.replicate 6 none ∧
    sampleCtx.externalOuts = List.replicate 6 none := ⟨rfl, rfl⟩

/-- C2 (code_bug): `bind_sink` / `bind_source` bounds-check against
`MAX_ALLOWABLE_OUTPUTS/INPUTS = 10` but index vectors of length
`MAX_EXTERNAL_OUTS/INS = 6`: slots 0–5 install the pointer and return
normally, slots 6–9 panic (modelled `none`), and only `k ≥ 10` is a no-op.
Evaluated on the concretely constructed identity board. -/
theorem C2_bind_bounds_mismatch :
    (∀ p, bindSink sampleCtx 6 p = none) ∧
    (∀ p, bindSink sampleCtx 9 p = none) ∧
    (∀ p, bindSource sampleCtx 6 p = none) ∧
    (∀ p, bindSink sampleCtx 10 p = some sampleCtx) ∧
    (∀ p, bindSource sampleCtx 10 p = some sampleCtx) ∧
    (∀ p, bindSink sampleCtx 5 p =
      some { sampleCtx with externalOuts := sampleCtx.externalOuts.set 5 p }) ∧
    (∀ p, bindSource sampleCtx 0 p =
      some { sampleCtx with externalIns := sampleCtx.externalIns.set 0 p }) :=
  ⟨fun _ => rfl, fun _ => rfl, fun _ => rfl, fun _ => rfl, fun _ => rfl,
   fun _ => rfl, fun _ => rfl⟩

/-- C7 (code_bug): `Null` readers absorb reads as 0 and `Null` writers
discard writes, and unbound (null-pointer) or past-the-bound indices do
yield `Null` — but buffer indices `1024+6 … 1024+9` (and `2048+6 … 2048+9`
for writes) panic on the six-slot external vectors instead of returning
`Null`.  Evaluated on the concretely constructed identity board. -/
theorem C7_null_buffer_semantics :
    (∀ st i, bufRead st .null i = 0) ∧
    (∀ st i v, bufWrite st .null i v = st) ∧
    getBufferForRead sampleCtx 1025 = some .null ∧
    getBufferForRead sampleCtx 1034 = some .null ∧
    getBufferForRead sampleCtx 7 = some .null ∧
    getBufferForWrite sampleCtx 2053 = some .null ∧
    getBufferForWrite sampleCtx 2058 = some .null ∧
    getBufferForRead sampleCtx 1030 = none ∧
    getBufferForWrite sampleCtx 2054 = none :=
  ⟨fun _ _ => rfl, fun _ _ _ => rfl, rfl, rfl, rfl, rfl, rfl, rfl, rfl⟩

/-!
## C10: internal writer / ring-buffer block round trip
-/

/-- C10 (amended): an `Internal` `buf_write` ignores its index argument and
stores at the buffer's write cursor; a block of `n` samples written into a
fresh internal buffer of capacity `c` reads back exactly (for every block)
iff `n = c`; for `n < c`, offset `i` reads the older zero contents when
`n + i < c` but wraps into the beginning of the freshly written block
(`x (n + i - c)`) when `n + i ≥ c`. -/
theorem C10_internal_write_block_roundtrip (c n : ℕ) (hc : 0 < c)
    (hn : n ≤ c) (hpos : 0 < n) :
    (∀ (st : BoardState) (b i j : ℕ) (v : ℚ),
        bufWrite st (.internal b) i v = bufWrite st (.internal b) j v) ∧
    ((∀ (x : ℕ → ℚ), ∀ i < n, SFB.readAfterBlock c x n i = x i) ↔ n = c) ∧
    (n < c → ∀ (x : ℕ → ℚ), ∀ i < n,
      SFB.readAfterBlock c x n i = if n + i < c then 0 else x (n + i - c)) := by
  refine ⟨fun _ _ _ _ _ => rfl, ⟨?_, ?_⟩, ?_⟩
  · intro h
    by_contra hne
    have hlt : n < c := lt_of_le_of_ne hn hne
    have h0 := h (fun _ => 1) 0 hpos
    rw [readAfterBlock_eq hc _ hn 0 hpos, if_pos (by omega)] at h0
    exact absurd h0 (by norm_num)
  · intro hcc x i hi
    rw [readAfterBlock_eq hc x hn i hi, if_neg (by omega)]
    congr 1
    omega
  · intro _ x i hi
    exact readAfterBlock_eq hc x hn i hi

theorem C10_internal_write_block_roundtrip_witness :
    ((∀ (x : ℕ → ℚ), ∀ i < 4, SFB.readAfterBlock 4 x 4 i = x i) ↔ (4 : ℕ) = 4) ∧
    ((3 : ℕ) < 4 → ∀ (x : ℕ → ℚ), ∀ i < 3,
      SFB.readAfterBlock 4 x 3 i = if 3 + i < 4 then 0 else x (3 + i - 4)) :=
  ⟨(C10_internal_write_block_roundtrip 4 4 (by norm_num) (by norm_num)
      (by norm_num)).2.1,
   (C10_internal_write_block_roundtrip 4 3 (by norm_num) (by norm_num)
      (by norm_num)).2.2⟩

/-- C10 counterexample: with capacity 4 and a 3-sample block `1, 2, 3`
written into a fresh buffer, the claim's "for `n < capacity` the reads
return the older contents of other slots (zero on a freshly constructed
buffer)" fails: offset 1 reads back 1 (the first sample of the block,
wrapped), not 0. -/
theorem C10_internal_write_block_roundtrip_cex :
    ¬ (∀ i < 3, SFB.readAfterBlock 4 (fun j => (j : ℚ) + 1) 3 i = 0) := by
  intro h
  have h1 := h 1 (by norm_num)
  have : SFB.readAfterBlock 4 (fun j => (j : ℚ) + 1) 3 1 = 1 := by
    rw [readAfterBlock_eq (by norm_num) _ (by norm_num) 1 (by norm_num)]
    norm_num
  rw [this] at h1
  exact absurd h1 (by norm_num)

/-!
## C6: aggregated buffer-declaration errors
-/

theorem hasPref_append (p s : List Char) : hasPref (p ++ s) p = true := by
  induction p with
  | nil => cases s <;> rfl
  | cons c cs ih => simpa [hasPref] using ih

/-- Helper: `@SOURCE_k` with a digit-suffix value `k ≥ 10` is rejected by
`generate_idx_for_buf_name` (state untouched, no index produced). -/
theorem generateIdx_rejects_large_source (st : ConsState) (s : List Char)
    (k : ℕ) (hparse : parseNatDigits s = some k) (hk : 10 ≤ k) :
    generateIdxForBufName st ("@SOURCE_".data ++ s) = (st, none) := by
  have hne : s ≠ [] := by
    intro h
    rw [h] at hparse
    simp [parseNatDigits] at hparse
  have hlen : 8 < ("@SOURCE_".data ++ s).length := by
    rw [List.length_append]
    have : 0 < s.length := List.length_pos.mpr hne
    norm_num
    omega
  have hdrop : ("@SOURCE_".data ++ s).drop 8 = s := by
    have h8 : ("@SOURCE_".data).length = 8 := rfl
    rw [← h8, List.drop_left]
  rw [generateIdxForBufName, if_pos ⟨hasPref_append _ s, hlen⟩, hdrop, hparse]
  simp [MAX_ALLOWABLE_INPUTS, hk]

/-- C6 (confirmed): constructing with buffers `["a","a","@SOURCE_99"]` fails
with an error list containing both the redeclaration message for `a` and the
invalid-source message for `@SOURCE_99`; and in general every
`@SOURCE_k` name with `k ≥ MAX_ALLOWABLE_INPUTS = 10` is rejected by
`generate_idx_for_buf_name`. -/
theorem C6_error_aggregation :
    (∃ errs, createMemBuffers ["a".data, "a".data, "@SOURCE_99".data] 32 =
        .error errs ∧
      "Redeclaration of buffer a".data ∈ errs ∧
      "Failed to generate idx for name @SOURCE_99".data ∈ errs) ∧
    (∀ (st : ConsState) (s : List Char) (k : ℕ),
      parseNatDigits s = some k → MAX_ALLOWABLE_INPUTS ≤ k →
      generateIdxForBufName st ("@SOURCE_".data ++ s) = (st, none)) := by
  constructor
  · refine ⟨["Redeclaration of buffer a".data,
             "Failed to generate idx for name @SOURCE_99".data], rfl, ?_, ?_⟩
    · exact List.mem_cons_self _ _
    · exact List.mem_cons_of_mem _ (List.mem_cons_self _ _)
  · intro st s k hp hk
    exact generateIdx_rejects_large_source st s k hp hk

theorem C6_error_aggregation_witness :
    generateIdxForBufName ⟨[], 0⟩ ("@SOURCE_".data ++ "99".data) =
      (⟨[], 0⟩, none) :=
  C6_error_aggregation.2 ⟨[], 0⟩ "99".data 99 rfl
    (by norm_num [MAX_ALLOWABLE_INPUTS])

theorem generateIdx_none {st : ConsState} {name : List Char} {st' : ConsState}
    (h : generateIdxForBufName st name = (st', none)) : st' = st := by
  unfold generateIdxForBufName at h
  split at h
  · split at h
    · split at h
      · injection h with h1 h2; exact h1.symm
      · injection h with h1 h2; exact Option.noConfusion h2
    · injection h with h1 h2; exact h1.symm
  · split at h
    · split at h
      · split at h
        · injection h with h1 h2; exact h1.symm
        · injection h with h1 h2; exact Option.noConfusion h2
      · injection h with h1 h2; exact h1.symm
    · injection h with h1 h2; exact Option.noConfusion h2

theorem generateIdx_some {st : ConsState} {name : List Char} {st' : ConsState}
    {idx : ℕ} (h : generateIdxForBufName st name = (st', some idx)) :
    st'.map = st.map ∧
    (idx ≤ st.map.length ∨
     (FIRST_INPUT_IDX ≤ idx ∧ idx < FIRST_INPUT_IDX + MAX_ALLOWABLE_INPUTS) ∨
     (FIRST_OUTPUT_IDX ≤ idx ∧ idx < FIRST_OUTPUT_IDX + MAX_ALLOWABLE_OUTPUTS)) := by
  unfold generateIdxForBufName at h
  split at h
  · split at h
    · split at h
      · injection h with h1 h2; exact Option.noConfusion h2
      · injection h with h1 h2
        refine ⟨by rw [← h1], Or.inr (Or.inl ?_)⟩
        have h3 := Option.some.inj h2
        simp only [MAX_ALLOWABLE_INPUTS, FIRST_INPUT_IDX] at *
        omega
    · injection h with h1 h2; exact Option.noConfusion h2
  · split at h
    · split at h
      · split at h
        · injection h with h1 h2; exact Option.noConfusion h2
        · injection h with h1 h2
          refine ⟨by rw [← h1], Or.inr (Or.inr ?_)⟩
          have h3 := Option.some.inj h2
          simp only [MAX_ALLOWABLE_OUTPUTS, FIRST_OUTPUT_IDX] at *
          omega
      · injection h with h1 h2; exact Option.noConfusion h2
    · injection h with h1 h2
      refine ⟨by rw [← h1], Or.inl ?_⟩
      have h3 := Option.some.inj h2
      omega

theorem mapInsert_length_le (m : List (List Char × ℕ)) (k : List Char) (v : ℕ) :
    (mapInsert m k v).length ≤ m.length + 1 := by
  unfold mapInsert
  split
  · rw [List.length_map]; omega
  · rw [List.length_append]; simp

theorem mapInsert_mem {m : List (List Char × ℕ)} {k : List Char} {v : ℕ}
    {p : List Char × ℕ} (hp : p ∈ mapInsert m k v) : p.2 = v ∨ p ∈ m := by
  unfold mapInsert at hp
  split at hp
  · rcases List.mem_map.mp hp with ⟨q, hq, hqe⟩
    by_cases hqk : q.1 = k
    · rw [if_pos hqk] at hqe
      left
      rw [← hqe]
    · rw [if_neg hqk] at hqe
      right
      rw [← hqe]
      exact hq
  · rcases List.mem_append.mp hp with h | h
    · right; exact h
    · left
      rw [List.mem_singleton.mp h]

theorem mapGet_mem {m : List (List Char × ℕ)} {k : List Char} {v : ℕ}
    (h : mapGet m k = some v) : ∃ key, (key, v) ∈ m := by
  unfold mapGet at h
  cases hf : m.find? (fun p => p.1 = k) with
  | none => rw [hf] at h; simp at h
  | some q =>
    rw [hf] at h
    have hq : q ∈ m := List.mem_of_find?_eq_some hf
    have h2 : q.2 = v := Option.some.inj h
    exact ⟨q.1, by rw [← h2, Prod.mk.eta]; exact hq⟩

theorem mapContains_get {m : List (List Char × ℕ)} {k : List Char}
    (h : mapContains m k = true) : ∃ v, mapGet m k = some v := by
  unfold mapContains at h
  rcases List.any_eq_true.mp h with ⟨p, hp, hpe⟩
  have hfind : (m.find? (fun p => p.1 = k)).isSome := by
    rw [List.find?_isSome]
    exact ⟨p, hp, hpe⟩
  rcases Option.isSome_iff_exists.mp hfind with ⟨q, hq⟩
  refine ⟨q.2, ?_⟩
  rw [mapGet, hq]
  rfl

theorem cmbGo_map_valid (mbs : ℕ) :
    ∀ (names : List (List Char)) (st : ConsState) (errs : List (List Char))
      (bufs : List SFB),
      (∀ p ∈ st.map, validIdx p.2) →
      st.map.length + names.length ≤ MAX_ALLOWABLE_BUF_DECLS →
      ∀ p ∈ (createMemBuffersGo mbs (st, errs, bufs) names).1.map, validIdx p.2 := by
  intro names
  induction names with
  | nil => intro st errs bufs hv _ p hp; exact hv p hp
  | cons name rest ih =>
    intro st errs bufs hv hlen
    rw [createMemBuffersGo]
    cases hgen : generateIdxForBufName st name with
    | mk st1 r =>
      cases r with
      | none =>
        simp only
        have hst1 : st1 = st := generateIdx_none hgen
        subst hst1
        exact ih st1 _ _ hv (by simpa using Nat.le_of_succ_le (by simpa using hlen))
      | some idx =>
        simp only
        obtain ⟨hmapeq, hval⟩ := generateIdx_some hgen
        have hvalid : validIdx idx := by
          rcases hval with h | h | h
          · left
            have : st.map.length < MAX_ALLOWABLE_BUF_DECLS := by
              simp only [List.length_cons] at hlen
              omega
            omega
          · right; left; exact h
          · right; right; exact h
        apply ih
        · intro p hp
          rcases mapInsert_mem hp with h | h
          · rwa [h]
          · exact hv p (hmapeq ▸ h)
        · show (mapInsert st1.map name idx).length + rest.length ≤
            MAX_ALLOWABLE_BUF_DECLS
          have h1 := mapInsert_length_le st1.map name idx
          rw [hmapeq] at h1
          rw [hmapeq]
          simp only [List.length_cons] at hlen
          omega

theorem fbt_valid {helper : ConsState}
    (hmap : ∀ p ∈ helper.map, validIdx p.2) :
    ∀ (targets : List (List Char)) (idxs : List ℕ) (used errs : List (List Char)),
      (∀ i ∈ idxs, validIdx i) →
      ∀ i ∈ (findBufferTargets helper (idxs, used, errs) targets).1, validIdx i := by
  intro targets
  induction targets with
  | nil => intro idxs used errs hv i hi; exact hv i hi
  | cons name rest ih =>
    intro idxs used errs hv
    rw [findBufferTargets]
    by_cases hc : mapContains helper.map name
    · rw [if_neg (by simpa using hc)]
      by_cases hu : name ∈ used
      · rw [if_pos hu]
        exact ih _ _ _ hv
      · rw [if_neg hu]
        apply ih
        intro i hi
        rcases List.mem_append.mp hi with h | h
        · exact hv i h
        · rw [List.mem_singleton.mp h]
          rcases mapContains_get hc with ⟨v, hvv⟩
          rw [hvv, Option.getD_some]
          rcases mapGet_mem hvv with ⟨key, hkey⟩
          exact hmap (key, v) hkey
    · rw [if_pos (by simpa using hc)]
      exact ih _ _ _ hv

theorem ceGo_valid {helper : ConsState} {effects : LoadedEffectsMap}
    (hmap : ∀ p ∈ helper.map, validIdx p.2) :
    ∀ (cis : List ConnDecl) (errs : List (List Char))
      (conns : List BoardConnection),
      (∀ conn ∈ conns,
        (∀ i ∈ conn.inputsIdxs, validIdx i) ∧ (∀ i ∈ conn.outputIdxs, validIdx i)) →
      ∀ conn ∈ (createEffectConnectionsGo helper effects (errs, conns) cis).2,
        (∀ i ∈ conn.inputsIdxs, validIdx i) ∧ (∀ i ∈ conn.outputIdxs, validIdx i) := by
  intro cis
  induction cis with
  | nil => intro errs conns hv conn hconn; exact hv conn hconn
  | cons ci rest ih =>
    intro errs conns hv
    rw [createEffectConnectionsGo]
    by_cases hc : mapContains effects ci.effect
    · rw [if_neg (by simpa using hc)]
      by_cases hord : effects.length ≤ (mapGet effects ci.effect).getD 0
      · rw [if_pos hord]
        exact ih _ _ hv
      · rw [if_neg hord]
        apply ih
        intro conn hconn
        rcases List.mem_append.mp hconn with h | h
        · exact hv conn h
        · rw [List.mem_singleton.mp h]
          refine ⟨fbt_valid hmap ci.reads [] [] errs (by simp), ?_⟩
          exact fbt_valid hmap ci.writes [] _ _ (by simp)
    · rw [if_pos (by simpa using hc)]
      exact ih _ _ hv

/-- C8 (confirmed): whenever board-context construction succeeds, every
index in any resolved connection's input or output index list lies in the
union of the three ranges `[0,1024) ∪ [1024,1034) ∪ [2048,2058)`, and those
three ranges are pairwise disjoint (so each index lies in exactly one). -/
theorem C8_connection_indices_in_ranges
    (bufNames : List (List Char)) (conns : List ConnDecl) (mbs : ℕ)
    (effects : LoadedEffectsMap) (st : BoardState)
    (h : initializeContext bufNames conns mbs effects = .ok st) :
    (∀ conn ∈ st.connections,
      (∀ i ∈ conn.inputsIdxs, validIdx i) ∧
      (∀ i ∈ conn.outputIdxs, validIdx i)) ∧
    (∀ i : ℕ,
      ¬ (i < MAX_ALLOWABLE_BUF_DECLS ∧ FIRST_INPUT_IDX ≤ i) ∧
      ¬ (i < MAX_ALLOWABLE_BUF_DECLS ∧ FIRST_OUTPUT_IDX ≤ i) ∧
      ¬ (i < FIRST_INPUT_IDX + MAX_ALLOWABLE_INPUTS ∧ FIRST_OUTPUT_IDX ≤ i)) := by
  constructor
  · unfold initializeContext at h
    cases hmb : createMemBuffers bufNames mbs with
    | error e => rw [hmb] at h; simp [Bind.bind, Except.bind] at h
    | ok pr =>
      obtain ⟨cs, bufs⟩ := pr
      rw [hmb] at h
      simp only [Bind.bind, Except.bind] at h
      cases hce : createEffectConnections cs conns effects with
      | error e => rw [hce] at h; simp at h
      | ok resolved =>
        rw [hce] at h
        simp only [pure, Except.pure, Except.ok.injEq] at h
        have hconns : st.connections = resolved := by rw [← h]
        have hmapv : ∀ p ∈ cs.map, validIdx p.2 := by
          simp only [createMemBuffers] at hmb
          split at hmb
          · simp at hmb
          · split at hmb
            · have hpair := Except.ok.inj hmb
              have hcs : cs = (createMemBuffersGo mbs (⟨[], 0⟩, [], []) bufNames).1 := by
                have := congrArg Prod.fst hpair
                exact this.symm
              rw [hcs]
              apply cmbGo_map_valid mbs bufNames ⟨[], 0⟩ [] []
              · intro p hp; simp at hp
              · simp only [List.length_nil]
                omega
            · simp at hmb
        have hresv : ∀ conn ∈ resolved,
            (∀ i ∈ conn.inputsIdxs, validIdx i) ∧
            (∀ i ∈ conn.outputIdxs, validIdx i) := by
          simp only [createEffectConnections] at hce
          split at hce
          · have hres : resolved = (createEffectConnectionsGo cs effects ([], []) conns).2 := by
              exact (Except.ok.inj hce).symm
            rw [hres]
            apply ceGo_valid hmapv
            intro conn hconn
            simp at hconn
          · simp at hce
        rw [hconns]
        exact hresv
  · intro i
    simp only [MAX_ALLOWABLE_BUF_DECLS, FIRST_INPUT_IDX, FIRST_OUTPUT_IDX,
      MAX_ALLOWABLE_INPUTS]
    omega

theorem C8_connection_indices_in_ranges_witness :
    (∀ conn ∈ sampleCtx.connections,
      (∀ i ∈ conn.inputsIdxs, validIdx i) ∧
      (∀ i ∈ conn.outputIdxs, validIdx i)) ∧
    (∀ i : ℕ,
      ¬ (i < MAX_ALLOWABLE_BUF_DECLS ∧ FIRST_INPUT_IDX ≤ i) ∧
      ¬ (i < MAX_ALLOWABLE_BUF_DECLS ∧ FIRST_OUTPUT_IDX ≤ i) ∧
      ¬ (i < FIRST_INPUT_IDX + MAX_ALLOWABLE_INPUTS ∧ FIRST_OUTPUT_IDX ≤ i)) :=
  C8_connection_indices_in_ranges sampleBufNames sampleConns 32 sampleEffects
    sampleCtx rfl

theorem c3Ctx_ok :
    initializeContext c3BufNames c3Conns 32 c3Effects = .ok c3Ctx := rfl

theorem c3Ctx_connections : c3Ctx.connections = [⟨0, [], [5]⟩] := rfl

/-- C3 (code_bug): on the six-buffer board with connection
`reads = [], writes = ["b5"]` (resolved output index 5) and one sample,
`GenericBypass::execute` leaves buffer 5 completely untouched and instead
writes its zero through buffer index 0 (the loop position), while the
spec-modelled execute zeroes buffer 5 and leaves buffer 0 untouched. -/
theorem C3_generic_bypass_zeroes_wrong_buffer :
    (∃ st', genericBypassExecute c3Ctx 0 1 = some st' ∧
      st'.buffers.getD 5 default = c3Ctx.buffers.getD 5 default ∧
      (st'.buffers.getD 0 default).writeIdx = 1) ∧
    (∃ st', specGenericBypassExecute c3Ctx 0 1 = some st' ∧
      (st'.buffers.getD 5 default).writeIdx = 1 ∧
      st'.buffers.getD 0 default = c3Ctx.buffers.getD 0 default) :=
  ⟨⟨_, rfl, rfl, rfl⟩, ⟨_, rfl, rfl, rfl⟩⟩

theorem getD_set_head {α : Type} (l : List α) (a d : α) (h : 0 < l.length) :
    (l.set 0 a).getD 0 d = a := by
  cases l with
  | nil => simp at h
  | cons b t => rfl

/-- Reading the delay tap `limit - D - 1` after `i` writes of the stream `x`
into a fresh buffer: zero while `i ≤ D`, then `x (i - D - 1)` — an effective
delay of `D + 1` samples. -/
theorem readDelayTap_writeSeq {cap D : ℕ} (hD : D + 2 ≤ cap) (x : ℕ → ℚ)
    (i : ℕ) :
    ((SFB.withMaxCapacity cap).writeSeq x i).read (cap - D - 1) =
      if i < D + 1 then 0 else x (i - D - 1) := by
  have hc : 0 < cap := by omega
  rw [SFB.writeSeq_fresh hc, SFB.read]
  simp only
  by_cases h : i < D + 1
  · rw [if_pos h]
    have hi : i % cap = i := Nat.mod_eq_of_lt (by omega)
    have hslot : (i % cap + (cap - D - 1)) % cap = i + (cap - D - 1) := by
      rw [hi, Nat.mod_eq_of_lt (by omega)]
    rw [hslot]
    refine cyclicWrites_untouched 0 hc x (by omega) (fun m hm => ?_)
    rw [Nat.mod_eq_of_lt (by omega)]
    omega
  · rw [if_neg h]
    have hm : i - D - 1 < i := by omega
    have hslot : (i % cap + (cap - D - 1)) % cap = (i - D - 1) % cap := by
      rw [Nat.mod_add_mod]
      have hrw : i + (cap - D - 1) = (i - D - 1) + cap := by omega
      conv_lhs => rw [hrw]
      rw [Nat.add_mod_right]
    rw [hslot]
    exact cyclicWrites_last 0 hc x hm (by omega)

/-- Invariant of the `MonoDelayBasic::execute` loop with `wet = 1`,
`dry = 0`, `feedback = 0`, external reader/writer slot 0: after `k`
iterations the delay line holds the first `k` input samples and the host
output memory holds the delayed stream on `[0, k)`. -/
theorem delayLoop_wetOnly {cap D : ℕ} (hcap : D + 2 ≤ cap)
    (x out0 : ℕ → ℚ) (st : BoardState)
    (hin : st.externalIns.getD 0 none = some x)
    (hout : st.externalOuts.getD 0 none = some out0)
    (hlen : 0 < st.externalOuts.length)
    (db0 : DelayBuffer)
    (hbuf : db0.buf = SFB.withMaxCapacity cap)
    (hwhole : db0.wholeDelaySamples = (D : ℤ))
    (hfract : db0.fractDelaySamples = 0) :
    ∀ k,
      (delayLoop (.external 0) (.external 0) 1 0 0 (st, db0) k).2 =
        { db0 with buf := (SFB.withMaxCapacity cap).writeSeq x k } ∧
      (delayLoop (.external 0) (.external 0) 1 0 0 (st, db0) k).1.externalIns =
        st.externalIns ∧
      0 < (delayLoop (.external 0) (.external 0) 1 0 0 (st, db0) k).1.externalOuts.length ∧
      ∃ g,
        (delayLoop (.external 0) (.external 0) 1 0 0 (st, db0) k).1.externalOuts.getD 0 none =
          some g ∧
        ∀ j, g j = if j < k then (if j < D + 1 then 0 else x (j - D - 1)) else out0 j := by
  intro k
  induction k with
  | zero =>
    refine ⟨?_, rfl, hlen, out0, hout, fun j => by simp⟩
    rw [delayLoop, SFB.writeSeq, ← hbuf]
  | succ k ih =>
    rcases hPk : delayLoop (.external 0) (.external 0) 1 0 0 (st, db0) k with ⟨st1, db1⟩
    rw [hPk] at ih
    dsimp only at ih
    obtain ⟨hdb, hins, hlen1, g, hg, hgj⟩ := ih
    have hxn : bufRead st1 (.external 0) k = x k := by
      rw [bufRead, hins, hin]
    have hyn : db1.readDelayedSample = if k < D + 1 then 0 else x (k - D - 1) := by
      rw [hdb, DelayBuffer.readDelayedSample]
      simp only [hfract, hwhole, lerp, Int.toNat_natCast]
      rw [SFB.writeSeq_fresh (by omega : 0 < cap)]
      simp only
      rw [← SFB.writeSeq_fresh (by omega : 0 < cap)]
      rw [readDelayTap_writeSeq hcap]
      ring
    simp only [delayLoop, hPk]
    have hdn : bufRead st1 (.external 0) k + 0 * db1.readDelayedSample = x k := by
      rw [hxn]; ring
    have houtv : (0 : ℚ) * bufRead st1 (.external 0) k + 1 * db1.readDelayedSample =
        db1.readDelayedSample := by ring
    constructor
    · simp only [DelayBuffer.writeSample]
      rw [hdn, hdb, SFB.writeSeq]
    refine ⟨?_, ?_, ?_⟩
    · simp only [bufWrite, hg]
      exact hins
    · simp only [bufWrite, hg, List.length_set]
      exact hlen1
    · refine ⟨Function.update g k (0 * bufRead st1 (.external 0) k +
        1 * db1.readDelayedSample), ?_, ?_⟩
      · simp only [bufWrite, hg]
        exact getD_set_head _ _ _ hlen1
      · intro j
        by_cases hjk : j = k
        · subst hjk
          rw [Function.update_same, houtv, hyn, if_pos (Nat.lt_succ_self j)]
        · rw [Function.update_noteq hjk, hgj j]
          by_cases hjlt : j < k
          · rw [if_pos hjlt, if_pos (Nat.lt_succ_of_lt hjlt)]
          · rw [if_neg hjlt, if_neg (by omega)]

/-- `MonoDelayBasic::execute` on a `@SOURCE_0 → @SINK_0` connection with
`wet = 1`, `feedback = 0` and an integer whole delay `D` on a fresh line:
the host sink memory receives zero for the first `D + 1` samples and
`x (i - D - 1)` afterwards; memory at offsets `≥ n` is untouched. -/
theorem delayExecute_wetOnly {cap D : ℕ} (n : ℕ) (hcap : D + 2 ≤ cap)
    (x out0 : ℕ → ℚ) (st : BoardState) (e : DelayEff)
    (hconn : st.connections.get? 0 = some ⟨0, [1024], [2048]⟩)
    (hinlist : st.externalIns.get? 0 = some (some x))
    (houtlist : st.externalOuts.get? 0 = some (some out0))
    (hp1 : e.params.getD 1 (.F 0) = .F 0)
    (hp2 : e.params.getD 2 (.F 0) = .F 1)
    (hbuf : e.delayBuf.buf = SFB.withMaxCapacity cap)
    (hwhole : e.delayBuf.wholeDelaySamples = (D : ℤ))
    (hfract : e.delayBuf.fractDelaySamples = 0) :
    ∃ e' st' g, delayExecute e st 0 n = some (e', st') ∧
      st'.externalOuts.getD 0 none = some g ∧
      (∀ i, i < n → g i = if i < D + 1 then 0 else x (i - D - 1)) ∧
      (∀ i, n ≤ i → g i = out0 i) := by
  have hin : st.externalIns.getD 0 none = some x := by
    rw [List.getD, hinlist]; rfl
  have hout : st.externalOuts.getD 0 none = some out0 := by
    rw [List.getD, houtlist]; rfl
  have hlen : 0 < st.externalOuts.length := by
    rcases List.get?_eq_some.mp houtlist with ⟨hlt, _⟩
    exact hlt
  have hsiso : basicSISO st 0 n = some (.inr (.external 0, .external 0)) := by
    rw [basicSISO, hconn]
    simp only [List.length_cons, List.length_nil]
    rw [if_neg (by norm_num)]
    have hw : getBufferForWrite st 2048 = some (.external 0) := by
      rw [getBufferForWrite]
      rw [if_pos (by norm_num [FIRST_OUTPUT_IDX])]
      rw [if_neg (by norm_num [FIRST_OUTPUT_IDX, MAX_ALLOWABLE_OUTPUTS])]
      have h0 : (2048 : ℕ) - FIRST_OUTPUT_IDX = 0 := by norm_num [FIRST_OUTPUT_IDX]
      rw [h0, houtlist]
    have hr : getBufferForRead st 1024 = some (.external 0) := by
      rw [getBufferForRead]
      rw [if_pos (by norm_num [FIRST_INPUT_IDX])]
      rw [if_neg (by norm_num [FIRST_INPUT_IDX, MAX_ALLOWABLE_INPUTS])]
      have h0 : (1024 : ℕ) - FIRST_INPUT_IDX = 0 := by norm_num [FIRST_INPUT_IDX]
      rw [h0, hinlist]
    have harg1 : (([2048] : List ℕ).getD 0 0) = 2048 := rfl
    have harg2 : (([1024] : List ℕ).getD 0 0) = 1024 := rfl
    rw [harg1, hw]
    dsimp only
    rw [if_neg (by norm_num), harg2, hr]
  rw [delayExecute, hsiso]
  simp only [hp1, hp2, ParamValue.asFlt]
  have hd10 : (1 : ℚ) - 1 = 0 := by norm_num
  rw [hd10]
  have hloop := delayLoop_wetOnly hcap x out0 st hin hout hlen e.delayBuf hbuf
    hwhole hfract n
  obtain ⟨hdb, hins, hlen1, g, hg, hgj⟩ := hloop
  refine ⟨_, _, g, rfl, hg, ?_, ?_⟩
  · intro i hi
    rw [hgj i, if_pos hi]
  · intro i hi
    rw [hgj i, if_neg (by omega)]

theorem ratFloor_eq_intFloor (q : ℚ) : q.floor = ⌊q⌋ := by
  rw [Rat.floor_def']
  exact Rat.floor_def.symm

theorem c4Delay_eval : c4Delay 1000 = some c4DelayUnit := by
  have hq1 : (1000 : ℚ) * 1000 / 1000 = 1000 := by norm_num
  have hcap : ((1000 : ℚ) * 1000 / 1000).floor.toNat = 1000 := by
    rw [hq1, ratFloor_eq_intFloor]
    norm_num
    rfl
  have hq2 : (2 : ℚ) * 1000 / 1000 = 2 := by norm_num
  have hrd : ((2 : ℚ) * 1000 / 1000).floor.toNat = 2 := by
    rw [hq2, ratFloor_eq_intFloor]
    norm_num
    rfl
  have hneg : ¬ (2 : ℚ) < 0 := by norm_num
  have h0le : (0 : ℚ) ≤ 2 := by norm_num
  have hfl : ⌊(2 : ℚ)⌋ = 2 := by norm_num
  have hcaple : ¬ ((SFB.withMaxCapacity 1000).capacity ≤
      ((2 : ℚ) * 1000 / 1000).floor.toNat) := by
    rw [hrd]
    norm_num [SFB.withMaxCapacity]
  simp only [c4Delay, DelayEff.new, DelayBuffer.withSampleRate,
    DelayBuffer.withSampleRateAndMaxDelay, hcap, DelayEff.setEffectParameter,
    List.length_cons, List.length_nil, List.set, ParamValue.asFlt,
    DelayBuffer.setDelayTimeMs, hneg, hcaple,
    DelayBuffer.setDelayTail, vmodf, rustTrunc, h0le,
    DelayBuffer.clampDelaySampleCount, hq2, hfl, Option.bind,
    if_true, if_false, ite_true, ite_false]
  norm_num [c4DelayUnit, SFB.withMaxCapacity]
  rw [show (Rat.floor (2 : ℚ)).toNat = 2 by rw [ratFloor_eq_intFloor, hfl]; rfl]
  norm_num

theorem c4Board_eval :
    c4Board c4Input (fun _ => 0) = some c4BoardState ∧
    c4BoardState.connections.get? 0 = some ⟨0, [1024], [2048]⟩ ∧
    c4BoardState.externalIns.get? 0 = some (some c4Input) ∧
    c4BoardState.externalOuts.get? 0 = some (some (fun _ => 0)) :=
  ⟨rfl, rfl, rfl, rfl⟩

/-- C4 (amended): with `wet = 1`, `dry = 0`, `feedback = 0` and an exact
whole delay of `D` samples, `MonoDelayBasic` delays by `D + 1` samples
(one more than the claim's `round(T·sr/1000)`): the sink receives 0 for
`i ≤ D` and `input[i - D - 1]` for `i ≥ D + 1`.  In particular the scenario
board (`sr = 1000`, `delay_time_ms = 2`, input `[1,0,0,0,0]`, `n = 5`)
yields `[0,0,0,1,0]`. -/
theorem C4_delay_is_offset_by_one :
    (∀ (cap D n : ℕ) (x out0 : ℕ → ℚ) (st : BoardState) (e : DelayEff),
      D + 2 ≤ cap →
      st.connections.get? 0 = some ⟨0, [1024], [2048]⟩ →
      st.externalIns.get? 0 = some (some x) →
      st.externalOuts.get? 0 = some (some out0) →
      e.params.getD 1 (.F 0) = .F 0 →
      e.params.getD 2 (.F 0) = .F 1 →
      e.delayBuf.buf = SFB.withMaxCapacity cap →
      e.delayBuf.wholeDelaySamples = (D : ℤ) →
      e.delayBuf.fractDelaySamples = 0 →
      ∃ e' st' g, delayExecute e st 0 n = some (e', st') ∧
        st'.externalOuts.getD 0 none = some g ∧
        (∀ i, i < n → g i = if i < D + 1 then 0 else x (i - D - 1)) ∧
        (∀ i, n ≤ i → g i = out0 i)) ∧
    (c4Delay 1000 = some c4DelayUnit ∧
      c4Board c4Input (fun _ => 0) = some c4BoardState ∧
      ∃ e' st' g,
        delayExecute c4DelayUnit c4BoardState 0 5 = some (e', st') ∧
        st'.externalOuts.getD 0 none = some g ∧
        [g 0, g 1, g 2, g 3, g 4] = [0, 0, 0, 1, 0]) := by
  constructor
  · intro cap D n x out0 st e hcap hconn hinl houtl hp1 hp2 hbuf hwhole hfract
    exact delayExecute_wetOnly n hcap x out0 st e hconn hinl houtl hp1 hp2
      hbuf hwhole hfract
  · obtain ⟨e', st', g, hexec, hmem, hlow, hhigh⟩ :=
      @delayExecute_wetOnly 1000 2 5 (by norm_num) c4Input
        (fun _ => 0) c4BoardState c4DelayUnit rfl rfl rfl rfl rfl rfl rfl rfl
    refine ⟨c4Delay_eval, rfl, e', st', g, hexec, hmem, ?_⟩
    have h0 := hlow 0 (by norm_num)
    have h1 := hlow 1 (by norm_num)
    have h2 := hlow 2 (by norm_num)
    have h3 := hlow 3 (by norm_num)
    have h4 := hlow 4 (by norm_num)
    norm_num [c4Input] at h0 h1 h2 h3 h4
    rw [h0, h1, h2, h3, h4]

theorem C4_delay_is_offset_by_one_witness :
    ∃ e' st' g,
      delayExecute c4DelayUnit c4BoardState 0 5 = some (e', st') ∧
      st'.externalOuts.getD 0 none = some g ∧
      (∀ i, i < 5 → g i = if i < 2 + 1 then 0 else c4Input (i - 2 - 1)) ∧
      (∀ i, 5 ≤ i → g i = (fun _ => (0 : ℚ)) i) :=
  C4_delay_is_offset_by_one.1 1000 2 5 c4Input (fun _ => 0) c4BoardState
    c4DelayUnit (by norm_num) rfl rfl rfl rfl rfl rfl rfl rfl

/-- C4 counterexample: the scenario board (`sr = 1000`,
`delay_time_ms = 2 ⇒ 2 whole samples`, `wet = 1`, `dry = 0`,
`feedback = 0`, input `[1,0,0,0,0]`, `n = 5`) produces `[0,0,0,1,0]`,
not the `[0,0,1,0,0]` the claim states. -/
theorem C4_delay_is_offset_by_one_cex :
    c4Delay 1000 = some c4DelayUnit ∧
    c4Board c4Input (fun _ => 0) = some c4BoardState ∧
    ∃ e' st' g,
      delayExecute c4DelayUnit c4BoardState 0 5 = some (e', st') ∧
      st'.externalOuts.getD 0 none = some g ∧
      [g 0, g 1, g 2, g 3, g 4] = [0, 0, 0, 1, 0] ∧
      ([0, 0, 0, 1, 0] : List ℚ) ≠ [0, 0, 1, 0, 0] := by
  obtain ⟨e', st', g, hexec, hmem, hlow, hhigh⟩ :=
    @delayExecute_wetOnly 1000 2 5 (by norm_num) c4Input
      (fun _ => 0) c4BoardState c4DelayUnit rfl rfl rfl rfl rfl rfl rfl rfl
  refine ⟨c4Delay_eval, rfl, e', st', g, hexec, hmem, ?_, by norm_num⟩
  have h0 := hlow 0 (by norm_num)
  have h1 := hlow 1 (by norm_num)
  have h2 := hlow 2 (by norm_num)
  have h3 := hlow 3 (by norm_num)
  have h4 := hlow 4 (by norm_num)
  norm_num [c4Input] at h0 h1 h2 h3 h4
  rw [h0, h1, h2, h3, h4]

theorem delayExecute_params {e : DelayEff} {st : BoardState} {ci n : ℕ}
    {e' : DelayEff} {st' : BoardState}
    (h : delayExecute e st ci n = some (e', st')) : e'.params = e.params := by
  unfold delayExecute at h
  rcases hs : basicSISO st ci n with _ | p
  · rw [hs] at h; exact absurd h (by simp)
  · rw [hs] at h
    rcases p with st1 | rw1
    · simp only at h
      injection h with h1
      injection h1 with h2 h3
      rw [← h2]
    · rcases rw1 with ⟨r, w⟩
      simp only at h
      injection h with h1
      injection h1 with h2 h3
      rw [← h2]

theorem exec_preserves_params {u u' : EffectUnit} {st st' : BoardState}
    {ci n : ℕ} (h : u.exec st ci n = some (u', st')) :
    u'.paramsOf = u.paramsOf := by
  cases u with
  | monoBypass =>
    simp only [EffectUnit.exec, Option.map_eq_some'] at h
    obtain ⟨a, _, h2⟩ := h
    injection h2 with h3 h4
    rw [← h3]
  | genericBypass =>
    simp only [EffectUnit.exec, Option.map_eq_some'] at h
    obtain ⟨a, _, h2⟩ := h
    injection h2 with h3 h4
    rw [← h3]
  | delayBasic e =>
    simp only [EffectUnit.exec, Option.map_eq_some'] at h
    obtain ⟨a, ha, h2⟩ := h
    injection h2 with h3 h4
    rw [← h3]
    rcases a with ⟨e1, st1⟩
    simp only [EffectUnit.paramsOf]
    exact delayExecute_params ha

theorem map_set_congr {α β : Type} (f : α → β) (l : List α) (i : ℕ) (a b : α)
    (hb : l.get? i = some b) (hf : f a = f b) :
    (l.set i a).map f = l.map f := by
  induction l generalizing i with
  | nil => simp at hb
  | cons c t ih =>
    cases i with
    | zero =>
      injection hb with hb1
      simp only [List.set, List.map, hf, hb1]
    | succ j =>
      simp only [List.set, List.map]
      rw [ih j hb]

theorem frolicGo_preserves {n : ℕ} :
    ∀ (k : ℕ) (m m' : OttersModel), frolicGo n m k = some m' →
      m'.asyncQueue = m.asyncQueue ∧
      m'.effects.map EffectUnit.paramsOf = m.effects.map EffectUnit.paramsOf := by
  intro k
  induction k with
  | zero =>
    intro m m' h
    injection h with h1
    rw [← h1]
    exact ⟨rfl, rfl⟩
  | succ k ih =>
    intro m m' h
    rw [frolicGo] at h
    rcases hgo : frolicGo n m k with _ | m1
    · rw [hgo] at h; exact absurd h (by simp [Bind.bind])
    rw [hgo] at h
    simp only [Bind.bind, Option.bind] at h
    rcases hconn : m1.context.connections.get? k with _ | conn
    · rw [hconn] at h; simp at h
    rw [hconn] at h
    simp only [Option.bind] at h
    rcases hen : m1.enableInfo.get? conn.ordinal with _ | en
    · rw [hen] at h; simp at h
    rw [hen] at h
    simp only [Option.bind] at h
    obtain ⟨hq1, hp1⟩ := ih m m1 hgo
    cases en with
    | true =>
      simp only [if_pos] at h
      rcases heff : m1.effects.get? conn.ordinal with _ | eff
      · rw [heff] at h; simp at h
      rw [heff] at h
      simp only [Option.bind] at h
      rcases hex : eff.exec m1.context k n with _ | p
      · rw [hex] at h; simp at h
      rw [hex] at h
      simp only [Option.some.injEq] at h
      rw [← h]
      refine ⟨hq1, ?_⟩
      simp only
      rw [map_set_congr _ _ _ _ eff heff (exec_preserves_params hex)]
      exact hp1
    | false =>
      simp only [Bool.false_eq_true, Option.bind] at h
      rcases hgb : genericBypassExecute m1.context k n with _ | ctx1
      · rw [hgb] at h; simp at h
      rw [hgb] at h
      rw [if_neg not_false] at h
      simp only [Option.some.injEq] at h
      rw [← h]
      exact ⟨hq1, hp1⟩

/-- C1 (code_bug): `frolic` never drains the parameter channel.  Every
`frolic` call (of any engine state) leaves the queue and every effect's
parameter vector unchanged, so a message enqueued by
`set_flt_param_value` / `set_int_param_value` is still in the queue — and
no `set_param` has been dispatched — after any number of `frolic` calls,
contradicting eventual visibility. -/
theorem C1_frolic_never_drains_queue :
    (∀ (m : OttersModel) (n : ℕ) (m' : OttersModel), frolic m n = some m' →
      m'.asyncQueue = m.asyncQueue ∧
      m'.effects.map EffectUnit.paramsOf = m.effects.map EffectUnit.paramsOf) ∧
    (∀ (m : OttersModel) (g : ℕ) (v : ℚ) (n k : ℕ) (m' : OttersModel),
      frolicN (setFltParamValue m g v) n k = some m' →
      (g, ParamValue.F v) ∈ m'.asyncQueue ∧
      m'.effects.map EffectUnit.paramsOf = m.effects.map EffectUnit.paramsOf) := by
  have hfrolic : ∀ (m : OttersModel) (n : ℕ) (m' : OttersModel),
      frolic m n = some m' →
      m'.asyncQueue = m.asyncQueue ∧
      m'.effects.map EffectUnit.paramsOf = m.effects.map EffectUnit.paramsOf :=
    fun m n m' h => frolicGo_preserves _ m m' h
  refine ⟨hfrolic, ?_⟩
  intro m g v n k
  induction k with
  | zero =>
    intro m' h
    injection h with h1
    rw [← h1]
    exact ⟨by simp [setFltParamValue], rfl⟩
  | succ k ih =>
    intro m' h
    rw [frolicN] at h
    rcases hN : frolicN (setFltParamValue m g v) n k with _ | m1
    · rw [hN] at h; exact absurd h (by simp [Bind.bind])
    rw [hN] at h
    simp only [Bind.bind, Option.bind] at h
    obtain ⟨hq1, hp1⟩ := ih m1 hN
    obtain ⟨hq2, hp2⟩ := hfrolic m1 n m' h
    exact ⟨hq2 ▸ hq1, hp2 ▸ hp1⟩

theorem C1_frolic_never_drains_queue_witness :
    ((∃ m', frolic emptyEngine 5 = some m' ∧
        m'.asyncQueue = emptyEngine.asyncQueue) ∧
      ((0 : ℕ), ParamValue.F 1) ∈
        (setFltParamValue emptyEngine 0 1).asyncQueue) := by
  refine ⟨⟨emptyEngine, rfl, (C1_frolic_never_drains_queue.1 emptyEngine 5
    emptyEngine rfl).1⟩, ?_⟩
  exact (C1_frolic_never_drains_queue.2 emptyEngine 0 1 5 0
    (setFltParamValue emptyEngine 0 1) rfl).1

theorem recreate_total (tr : TrigModel) (c : BiquadCoefficients)
    (h : c.iirType ≠ .numIIRFilterTypes) : ∃ c', recreate tr c = some c' := by
  unfold recreate
  cases hc : c.iirType
  case numIIRFilterTypes => exact absurd hc h
  all_goals exact ⟨_, rfl⟩

/-- C9 (amended): for each of the four parameters (filter type, cutoff,
boost/cut dB, Q), `BiquadFilter::set_effect_parameter` rebuilds the full
coefficient set for the (updated) current filter kind via the matching
constructor, leaves the `x` and `y` history buffers exactly unchanged, and
the next `filter` call combines the new coefficients with the pre-change
history — provided the update does not select the sentinel
`__NUM_IIR_FILTER_TYPES` value 10, which panics in `recreate`. -/
theorem C9_param_change_rebuilds_coefficients_preserves_history
    (tr : TrigModel) (f : BiquadFilterEff) (idx : ℕ) (v : ParamValue)
    (hidx : idx < 4) (hlen : f.params.length = 4)
    (hcur : f.biquad.coefficients.iirType ≠ .numIIRFilterTypes)
    (hsent : ¬ (idx = 0 ∧ v.asEnumIIR = .numIIRFilterTypes)) :
    ∃ f', BiquadFilterEff.setEffectParameter tr f idx v = some f' ∧
      f'.biquad.x = f.biquad.x ∧ f'.biquad.y = f.biquad.y ∧
      recreate tr (coeffFieldUpdate f.biquad.coefficients idx v) =
        some f'.biquad.coefficients ∧
      ∀ s, (f'.biquad.filter s).1 =
        biquadFormula f'.biquad.coefficients f.biquad.x f.biquad.y s := by
  interval_cases idx
  · obtain ⟨c', hc'⟩ := recreate_total tr
      { f.biquad.coefficients with iirType := v.asEnumIIR }
      (fun hcon => hsent ⟨rfl, hcon⟩)
    refine ⟨⟨f.params.set 0 v, ⟨c', f.biquad.x, f.biquad.y⟩⟩, ?_, rfl, rfl, ?_,
      fun s => rfl⟩
    · simp only [BiquadFilterEff.setEffectParameter, hlen, Biquad.changeType,
        hc', Option.map_some']
      norm_num
    · have hcu : coeffFieldUpdate f.biquad.coefficients 0 v =
          { f.biquad.coefficients with iirType := v.asEnumIIR } := by
        simp [coeffFieldUpdate]
      rw [hcu]
      exact hc'
  · obtain ⟨c', hc'⟩ := recreate_total tr
      { f.biquad.coefficients with cutoff := v.asFlt } hcur
    refine ⟨⟨f.params.set 1 v, ⟨c', f.biquad.x, f.biquad.y⟩⟩, ?_, rfl, rfl, ?_,
      fun s => rfl⟩
    · simp only [BiquadFilterEff.setEffectParameter, hlen, Biquad.changeCutoff,
        hc', Option.map_some']
      norm_num
    · have hcu : coeffFieldUpdate f.biquad.coefficients 1 v =
          { f.biquad.coefficients with cutoff := v.asFlt } := by
        simp [coeffFieldUpdate]
      rw [hcu]
      exact hc'
  · obtain ⟨c', hc'⟩ := recreate_total tr
      { f.biquad.coefficients with shelfGainDb := v.asFlt } hcur
    refine ⟨⟨f.params.set 2 v, ⟨c', f.biquad.x, f.biquad.y⟩⟩, ?_, rfl, rfl, ?_,
      fun s => rfl⟩
    · simp only [BiquadFilterEff.setEffectParameter, hlen, Biquad.changeShelfGain,
        hc', Option.map_some']
      norm_num
    · have hcu : coeffFieldUpdate f.biquad.coefficients 2 v =
          { f.biquad.coefficients with shelfGainDb := v.asFlt } := by
        simp [coeffFieldUpdate]
      rw [hcu]
      exact hc'
  · obtain ⟨c', hc'⟩ := recreate_total tr
      { f.biquad.coefficients with q := v.asFlt } hcur
    refine ⟨⟨f.params.set 3 v, ⟨c', f.biquad.x, f.biquad.y⟩⟩, ?_, rfl, rfl, ?_,
      fun s => rfl⟩
    · simp only [BiquadFilterEff.setEffectParameter, hlen, Biquad.changeQ,
        hc', Option.map_some']
      norm_num
    · have hcu : coeffFieldUpdate f.biquad.coefficients 3 v =
          { f.biquad.coefficients with q := v.asFlt } := by
        simp [coeffFieldUpdate]
      rw [hcu]
      exact hc'

theorem C9_param_change_rebuilds_coefficients_preserves_history_witness :
    ∃ f', BiquadFilterEff.setEffectParameter trivialTrig
        (BiquadFilterEff.new trivialTrig 1000) 3 (.F 2) = some f' ∧
      f'.biquad.x = (BiquadFilterEff.new trivialTrig 1000).biquad.x ∧
      f'.biquad.y = (BiquadFilterEff.new trivialTrig 1000).biquad.y ∧
      recreate trivialTrig
        (coeffFieldUpdate (BiquadFilterEff.new trivialTrig 1000).biquad.coefficients
          3 (.F 2)) = some f'.biquad.coefficients ∧
      ∀ s, (f'.biquad.filter s).1 =
        biquadFormula f'.biquad.coefficients
          (BiquadFilterEff.new trivialTrig 1000).biquad.x
          (BiquadFilterEff.new trivialTrig 1000).biquad.y s :=
  C9_param_change_rebuilds_coefficients_preserves_history trivialTrig
    (BiquadFilterEff.new trivialTrig 1000) 3 (.F 2) (by norm_num) rfl
    (by decide) (by simp)

/-- C9 counterexample: setting the filter-type parameter to the advertised
range's upper endpoint 10 resolves to the sentinel
`__NUM_IIR_FILTER_TYPES` variant and `recreate` panics — no coefficient
set is rebuilt. -/
theorem C9_param_change_rebuilds_coefficients_preserves_history_cex :
    BiquadFilterEff.setEffectParameter trivialTrig
      (BiquadFilterEff.new trivialTrig 1000) 0 (.N 10) = none := rfl

theorem fCount_eq (t : ℕ) :
    fCount t = if t < 1024 then 0 else (t - 1024) / 256 + 1 := by
  induction t with
  | zero => rfl
  | succ t ih =>
    rw [fCount, ih]
    split_ifs <;> omega

theorem fCount_le (t : ℕ) : 256 * fCount t ≤ t := by
  rw [fCount_eq]
  split <;> omega

theorem rewindIdx_spec (r c : ℕ) (hr : r < 4096) (hc : 0 < c)
    (hc2 : c ≤ 4096) : rewindIdx 4096 r c = (r + 4096 - c) % 4096 := by
  rw [rewindIdx]
  split <;> omega

theorem oaAddGo_snd {F : Type} [Field F] (sp : ℕ → F) (g : F) (n : ℕ) :
    ∀ (d : ℕ → F) (cur i : ℕ), cur < 4096 →
      (oaAddGo sp g n d cur i).2 = (cur + n) % 4096 := by
  induction n with
  | zero => intro d cur i hcur; rw [oaAddGo]; omega
  | succ n ih =>
    intro d cur i hcur
    rw [oaAddGo, ih _ _ _ (Nat.mod_lt _ (by norm_num))]
    omega

theorem oaAddGo_untouched {F : Type} [Field F] (sp : ℕ → F) (g : F)
    (n : ℕ) :
    ∀ (d : ℕ → F) (cur i p : ℕ), cur < 4096 →
      (∀ k, k < n → (cur + k) % 4096 ≠ p) →
      (oaAddGo sp g n d cur i).1 p = d p := by
  induction n with
  | zero => intro d cur i p _ _; rfl
  | succ n ih =>
    intro d cur i p hcur h
    rw [oaAddGo, ih _ _ _ _ (Nat.mod_lt _ (by norm_num))]
    · refine Function.update_noteq ?_ _ _
      have := h 0 (by omega)
      omega
    · intro k hk
      have := h (k + 1) (by omega)
      omega

theorem oaAddGo_get {F : Type} [Field F] (sp : ℕ → F) (g : F) (n : ℕ) :
    ∀ (d : ℕ → F) (cur i k : ℕ), n ≤ 4096 → cur < 4096 → k < n →
      (oaAddGo sp g n d cur i).1 ((cur + k) % 4096) =
        d ((cur + k) % 4096) + sp (i + k) * g := by
  induction n with
  | zero => intro d cur i k _ _ hk; omega
  | succ n ih =>
    intro d cur i k hn hcur hk
    rw [oaAddGo]
    rcases Nat.eq_zero_or_pos k with hk0 | hk0
    · subst hk0
      rw [oaAddGo_untouched sp g n _ _ _ _ (Nat.mod_lt _ (by norm_num))
        (by intro k' hk'; omega)]
      have hpos : (cur + 0) % 4096 = cur := by omega
      rw [hpos, Function.update_same, Nat.add_zero]
      ring
    · obtain ⟨k', rfl⟩ : ∃ k', k = k' + 1 := ⟨k - 1, by omega⟩
      have hrw := ih (Function.update d cur (sp i * g + d cur))
        ((cur + 1) % 4096) (i + 1) k' (by omega)
        (Nat.mod_lt _ (by norm_num)) (by omega)
      have hpos : ((cur + 1) % 4096 + k') % 4096 = (cur + (k' + 1)) % 4096 := by
        omega
      rw [hpos] at hrw
      rw [hrw, Function.update_noteq (by omega)]
      have hi : i + 1 + k' = i + (k' + 1) := by omega
      rw [hi]

theorem pendSum_zero_of {F : Type} [Field F] (w : ℕ → F) (g : F)
    (x : ℕ → F) (f T : ℕ)
    (h : ∀ j, j < f → ¬ (1024 + 256 * j ≤ T ∧ T < 2048 + 256 * j)) :
    pendSum w g x f T = 0 := by
  rw [pendSum, Finset.sum_eq_zero, mul_zero]
  intro j hj
  exact if_neg (h j (Finset.mem_range.mp hj))

theorem vocStep_fst {F : Type} [Field F] (w : ℕ → F) (g : F)
    (s : VocState F) (xv : F) :
    (vocStep w g s xv).1 = s.outData s.outRead := by
  simp only [vocStep]
  split <;> rfl

theorem vocStep_snd_no_fire {F : Type} [Field F] (w : ℕ → F) (g : F)
    (s : VocState F) (xv : F) (h : ¬ s.acc + 1 = 1024) :
    (vocStep w g s xv).2 =
      ⟨Function.update s.inData s.inWrite xv, s.inRead,
        (s.inWrite + 1) % 4096, Function.update s.outData s.outRead 0,
        (s.outRead + 1) % 4096, s.outWrite, s.acc + 1⟩ := by
  simp only [vocStep]
  rw [if_neg h]

theorem vocStep_snd_fire {F : Type} [Field F] (w : ℕ → F) (g : F)
    (s : VocState F) (xv : F) (h : s.acc + 1 = 1024) :
    (vocStep w g s xv).2 =
      ⟨Function.update s.inData s.inWrite xv,
        rewindIdx 4096 ((s.inRead + 1024) % 4096) 768,
        (s.inWrite + 1) % 4096,
        (overlapAdd
          (bypassRoundTrip
            (collectFrame (Function.update s.inData s.inWrite xv) s.inRead w))
          g (Function.update s.outData s.outRead 0) s.outWrite).1,
        (s.outRead + 1) % 4096,
        rewindIdx 4096
          (overlapAdd
            (bypassRoundTrip
              (collectFrame (Function.update s.inData s.inWrite xv) s.inRead
                w))
            g (Function.update s.outData s.outRead 0) s.outWrite).2 768,
        s.acc + 1 - 256⟩ := by
  simp only [vocStep]
  rw [if_pos h]

theorem vocInv {F : Type} [Field F] (w : ℕ → F) (g : F) (x : ℕ → F) :
    ∀ t : ℕ,
      (vocRun w g x t).inData = cyclicWrites 0 4096 x t ∧
      (vocRun w g x t).inRead = 256 * fCount t % 4096 ∧
      (vocRun w g x t).inWrite = t % 4096 ∧
      (vocRun w g x t).outRead = t % 4096 ∧
      (vocRun w g x t).outWrite = (1024 + 256 * fCount t) % 4096 ∧
      (vocRun w g x t).acc = t - 256 * fCount t ∧
      (∀ u, u < 4096 →
        (vocRun w g x t).outData ((t + u) % 4096) =
          pendSum w g x (fCount t) (t + u)) := by
  intro t
  induction t with
  | zero =>
    refine ⟨rfl, rfl, rfl, rfl, rfl, rfl, ?_⟩
    intro u hu
    rw [show fCount 0 = 0 from rfl, pendSum, Finset.range_zero,
      Finset.sum_empty, mul_zero]
    rfl
  | succ t ih =>
    obtain ⟨hin, hir, hiw, hor, how, hacc, hout⟩ := ih
    have hfle : 256 * fCount t ≤ t := fCount_le t
    have hrun : vocRun w g x (t + 1) =
        (vocStep w g (vocRun w g x t) (x t)).2 := rfl
    have hin1 : Function.update (vocRun w g x t).inData
        (vocRun w g x t).inWrite (x t) = cyclicWrites 0 4096 x (t + 1) := by
      rw [hin, hiw]
      rfl
    by_cases hfire : (vocRun w g x t).acc + 1 = 1024
    · have hteq : t + 1 = 1024 + 256 * fCount t := by
        have h2 := hfire
        rw [hacc] at h2
        omega
      have hf1 : fCount (t + 1) = fCount t + 1 := by
        rw [fCount, if_pos (by omega)]
      rw [hrun, vocStep_snd_fire w g _ (x t) hfire]
      dsimp only
      refine ⟨hin1, ?_, ?_, ?_, ?_, ?_, ?_⟩
      · rw [hir, hf1,
          rewindIdx_spec _ _ (Nat.mod_lt _ (by norm_num)) (by norm_num)
            (by norm_num)]
        omega
      · rw [hiw]; omega
      · rw [hor]; omega
      · rw [overlapAdd,
          oaAddGo_snd _ _ _ _ _ _ (by rw [how]; exact Nat.mod_lt _ (by norm_num)),
          how, hf1,
          rewindIdx_spec _ _ (Nat.mod_lt _ (by norm_num)) (by norm_num)
            (by norm_num)]
        omega
      · rw [hacc, hf1]; omega
      · intro u hu
        rw [hf1, hin1, hir, hor, how]
        rcases Nat.lt_or_ge u 1024 with hu1 | hu1
        · rw [overlapAdd]
          have hget := oaAddGo_get
            (bypassRoundTrip
              (collectFrame (cyclicWrites 0 4096 x (t + 1))
                (256 * fCount t % 4096) w)) g 1024
            (Function.update (vocRun w g x t).outData (t % 4096) 0)
            ((1024 + 256 * fCount t) % 4096) 0 u (by norm_num)
            (Nat.mod_lt _ (by norm_num)) hu1
          have hposW : ((1024 + 256 * fCount t) % 4096 + u) % 4096 =
              (t + 1 + u) % 4096 := by omega
          rw [hposW] at hget
          rw [hget,
            Function.update_noteq (by omega : (t + 1 + u) % 4096 ≠ t % 4096)]
          have hIH := hout (u + 1) (by omega)
          rw [show t + (u + 1) = t + 1 + u by omega] at hIH
          rw [hIH]
          simp only [bypassRoundTrip, collectFrame, Nat.zero_add]
          rw [show (256 * fCount t % 4096 + u) % 4096 =
              (256 * fCount t + u) % 4096 by omega,
            cyclicWrites_last 0 (by norm_num) x
              (show 256 * fCount t + u < t + 1 by omega)
              (show t + 1 ≤ 256 * fCount t + u + 4096 by omega)]
          rw [pendSum, pendSum, Finset.sum_range_succ,
            if_pos (by omega : 1024 + 256 * fCount t ≤ t + 1 + u ∧
              t + 1 + u < 2048 + 256 * fCount t)]
          rw [show t + 1 + u - 1024 = 256 * fCount t + u by omega,
            show 256 * fCount t + u - 256 * fCount t = u by omega]
          ring
        · rcases Nat.lt_or_ge u 4095 with hu2 | hu2
          · rw [overlapAdd,
              oaAddGo_untouched _ _ _ _ _ _ _ (Nat.mod_lt _ (by norm_num))
                (by intro k hk; omega),
              Function.update_noteq
                (by omega : (t + 1 + u) % 4096 ≠ t % 4096)]
            have hIH := hout (u + 1) (by omega)
            rw [show t + (u + 1) = t + 1 + u by omega] at hIH
            rw [hIH, pendSum, pendSum, Finset.sum_range_succ,
              if_neg (by omega : ¬(1024 + 256 * fCount t ≤ t + 1 + u ∧
                t + 1 + u < 2048 + 256 * fCount t)),
              add_zero]
          · have hu3 : u = 4095 := by omega
            subst hu3
            rw [overlapAdd,
              oaAddGo_untouched _ _ _ _ _ _ _ (Nat.mod_lt _ (by norm_num))
                (by intro k hk; omega),
              show (t + 1 + 4095) % 4096 = t % 4096 by omega,
              Function.update_same]
            exact (pendSum_zero_of w g x _ _ (by intro j hj; omega)).symm
    · have hcond : ¬(t + 1 - 256 * fCount t = 1024) := by
        intro hc
        exact hfire (by rw [hacc]; omega)
      have hf1 : fCount (t + 1) = fCount t := by
        rw [fCount, if_neg hcond]
      rw [hrun, vocStep_snd_no_fire w g _ (x t) hfire]
      dsimp only
      refine ⟨hin1, ?_, ?_, ?_, ?_, ?_, ?_⟩
      · rw [hir, hf1]
      · rw [hiw]; omega
      · rw [hor]; omega
      · rw [how, hf1]
      · rw [hacc, hf1]; omega
      · intro u hu
        rw [hf1]
        by_cases hu5 : u = 4095
        · subst hu5
          rw [hor, show (t + 1 + 4095) % 4096 = t % 4096 by omega,
            Function.update_same]
          exact (pendSum_zero_of w g x _ _ (by intro j hj; omega)).symm
        · rw [hor,
            Function.update_noteq
              (by omega : (t + 1 + u) % 4096 ≠ t % 4096)]
          have hIH := hout (u + 1) (by omega)
          rw [show t + (u + 1) = t + 1 + u by omega] at hIH
          exact hIH

theorem vocOut_eq {F : Type} [Field F] (w : ℕ → F) (g : F) (x : ℕ → F)
    (t : ℕ) : vocOut w g x t = pendSum w g x (fCount t) t := by
  obtain ⟨-, -, -, hor, -, -, hout⟩ := vocInv w g x t
  have h0 := hout 0 (by norm_num)
  rw [Nat.add_zero] at h0
  rw [vocOut, vocStep_fst, hor]
  exact h0

theorem pendSum_prebuffer {F : Type} [Field F] (w : ℕ → F) (g : F)
    (x : ℕ → F) (t : ℕ) (h : t < 1024) :
    pendSum w g x (fCount t) t = 0 := by
  refine pendSum_zero_of w g x _ _ ?_
  intro j hj
  omega

theorem pendSum_steady {F : Type} [Field F] (w : ℕ → F) (g : F)
    (x : ℕ → F) (t : ℕ) (h : 1024 ≤ t) :
    pendSum w g x (fCount t) t =
      1024 * g * vocAccum w (t - 1024) * x (t - 1024) := by
  rw [fCount_eq, if_neg (by omega), pendSum, vocAccum]
  rw [Finset.sum_congr rfl ?_]
  · ring
  · intro j hj
    have hj2 : j < (t - 1024) / 256 + 1 := Finset.mem_range.mp hj
    have hj3 : 256 * j ≤ t - 1024 := by omega
    rw [if_congr (by omega :
        (1024 + 256 * j ≤ t ∧ t < 2048 + 256 * j) ↔
          (t - 1024 - 256 * j < 1024)) rfl rfl]

/-- C5 (corrected): the Vocoder/Bypass pipeline (frame 1024, hop 256)
prebuffers a full `frame_size = 1024` samples of silence — not
`frame_size - hop_size = 768` — because the output ring's write cursor is
initialized `frame_size` ahead of the read cursor; and from sample 1024
onward the output is the input delayed by `frame_size` and scaled by
`frame_size * inv_gain_correction` times the accumulation of the analysis
window over the (up to four) frames overlapping that sample. -/
theorem C5_vocoder_prebuffer_then_scaled {F : Type} [Field F] (w : ℕ → F)
    (g : F) (x : ℕ → F) :
    (∀ t, t < 1024 → vocOut w g x t = 0) ∧
    (∀ t, 1024 ≤ t →
      vocOut w g x t = 1024 * g * vocAccum w (t - 1024) * x (t - 1024)) := by
  constructor
  · intro t ht
    rw [vocOut_eq]
    exact pendSum_prebuffer w g x t ht
  · intro t ht
    rw [vocOut_eq]
    exact pendSum_steady w g x t ht

theorem C5_vocoder_prebuffer_then_scaled_witness :
    vocOut (fun _ => (1 : ℚ)) 1 (fun _ => 1) 0 = 0 ∧
    vocOut (fun _ => (1 : ℚ)) 1 (fun _ => 1) 1024 =
      1024 * 1 * vocAccum (fun _ => (1 : ℚ)) 0 * 1 :=
  ⟨(C5_vocoder_prebuffer_then_scaled (fun _ => (1 : ℚ)) 1 (fun _ => 1)).1 0
      (by norm_num),
    (C5_vocoder_prebuffer_then_scaled (fun _ => (1 : ℚ)) 1 (fun _ => 1)).2 1024
      (by norm_num)⟩

/-- C5 counterexample to the original claim: with the actual `Vocoder/Bypass`
construction — Hamming analysis window over the real cosine and the
`inv_gain_correction` returned by `create_window` — and constant input 1,
output sample 768 is still zero while output sample 1024 is not, so the
output does not equal the (constant) scaled input from sample 768 onward:
the prebuffer is 1024 samples, not 768. -/
theorem C5_vocoder_prebuffer_then_scaled_cex :
    vocOut (hammingWindow Real.cos (2 * Real.pi))
        (invGainCorrection (hammingWindow Real.cos (2 * Real.pi)))
        (fun _ => (1 : ℝ)) 768 = 0 ∧
    vocOut (hammingWindow Real.cos (2 * Real.pi))
        (invGainCorrection (hammingWindow Real.cos (2 * Real.pi)))
        (fun _ => (1 : ℝ)) 1024 ≠ 0 := by
  constructor
  · rw [vocOut_eq]
    exact pendSum_prebuffer _ _ _ 768 (by norm_num)
  · rw [vocOut_eq, show fCount 1024 = 1 by rw [fCount_eq]; norm_num,
      pendSum, Finset.sum_range_one, if_pos (by norm_num)]
    have hw0 : hammingWindow Real.cos (2 * Real.pi) (1024 - 1024 - 256 * 0) =
        2 / 25 := by
      rw [hammingWindow]
      norm_num
    have hS : (0 : ℝ) <
        (Finset.range 1024).sum (hammingWindow Real.cos (2 * Real.pi)) := by
      have hterm : ∀ i ∈ Finset.range 1024,
          (2 / 25 : ℝ) ≤ hammingWindow Real.cos (2 * Real.pi) i := by
        intro i _
        rw [hammingWindow]
        have hc := Real.cos_le_one (((i : ℝ) * (2 * Real.pi)) / 1024)
        nlinarith
      calc (0 : ℝ) < 1024 * (2 / 25) := by norm_num
        _ = (Finset.range 1024).sum (fun _ => (2 / 25 : ℝ)) := by
            rw [Finset.sum_const, Finset.card_range, nsmul_eq_mul]
            norm_num
        _ ≤ _ := Finset.sum_le_sum hterm
    have hg : invGainCorrection (hammingWindow Real.cos (2 * Real.pi)) ≠ 0 := by
      rw [invGainCorrection,
        show (1 : ℝ) - (1 - (256 : ℝ) / 1024) = 1 / 4 by norm_num]
      exact div_ne_zero (by norm_num) (ne_of_gt hS)
    rw [hw0]
    exact mul_ne_zero
      (mul_ne_zero (mul_ne_zero (by norm_num) hg) (by norm_num))
      (by norm_num)

end Otters
